import Mathlib

/-!
Formal model of the flow-topology and supply-distribution engine of
`src/server.js`: building a spatial graph from pipeline waypoints
(`buildPipelineGraph`), multi-source BFS flow propagation with valve
blocking (`calculateFlowPaths`, `findBlockingValve`), segment geometry
(`distanceToSegment`), and hierarchical supply distribution
(`calculateSupplyOverview`, `findConnectedPipelines`).

Modelling conventions:
* JS `number` values are modelled as exact rationals (`ℚ`); IEEE-754
  rounding is idealised away.
* The transcendental great-circle formula `haversineDistance` (sin, cos,
  atan2 over floats) is not representable as a computable rational
  function, so it is kept abstract: every definition that the source
  routes through `haversineDistance` takes a parameter
  `hav : Pos → Pos → ℚ`.  Concrete runs instantiate `hav` with `linDist`,
  an axis-scaled absolute-difference distance that returns the same
  comparison verdicts as the haversine on the small equatorial,
  axis-aligned configurations used in those runs.
* A JS `Map` is modelled as an association list with `Map.set` semantics
  (`alistSet`): insertion order is preserved and re-setting an existing
  key replaces the value in place.
* The string node key `lat.toFixed(6) + "," + lng.toFixed(6)` is modelled
  as a pair of signed fixed-point components (`getNodeKey`); two node-key
  strings are equal exactly when the modelled pairs are equal.  Edge-set
  keys `from + "-" + to` are modelled as ordered pairs of node keys, which
  is faithful because the fixed key format makes the concatenation
  injective.
* A pipeline's stored `nodes` field is modelled by its `JSON.parse`
  outcome: `none` when parsing throws, `some ws` when it yields an array
  whose entries are `none` (entry fails the numeric lat/lng validation)
  or `some p`.  A JS exception is modelled as `Except.error`.
-/

namespace WFlow

/-- A geographic position: `{lat, lng}` in degrees. -/
structure Pos where
  lat : ℚ
  lng : ℚ
deriving DecidableEq, Repr

/-- The fields of a tank record that `calculateFlowPaths` reads. -/
structure Tank where
  name : String
  latitude : ℚ
  longitude : ℚ
  isActive : Bool
deriving DecidableEq, Repr

/-- The fields of a gate-valve record that the core reads. -/
structure Valve where
  valveId : String
  name : String
  category : String
  parentValveId : Option String
  households : ℚ
  mandal : String
  latitude : ℚ
  longitude : ℚ
  isOpen : Bool
deriving DecidableEq, Repr

/-- The fields of a pipeline record that the core reads; `nodes` is the
parse outcome of the stored waypoint string (see module comment). -/
structure Pipeline where
  id : String
  capacity : ℚ
  nodes : Option (List (Option Pos))
deriving DecidableEq, Repr

/-- Concrete distance used to instantiate the abstract `hav` parameter in
concrete runs: scaled taxicab distance, about 111 km per degree, which
agrees with the haversine's comparison verdicts on the small equatorial
axis-aligned inputs of those runs. -/
def linDist (p q : Pos) : ℚ :=
  (|p.lat - q.lat| + |p.lng - q.lng|) * 111000

/-- One signed fixed-point component of the JS `toFixed(6)` node-key
string: the sign flag models the `-` prefix JS prints for negative
numbers (including `-0.000000`), the integer is the rounded value of
`|q| * 10^6` with ties away from zero. -/
def fixed6 (q : ℚ) : Bool × ℤ :=
  (decide (q < 0), ⌊|q| * 1000000 + 1/2⌋)

/-- A graph-node key, modelling the string `lat.toFixed(6) + "," + lng.toFixed(6)`. -/
abbrev NodeKey := (Bool × ℤ) × (Bool × ℤ)

/-- `getNodeKey` of `buildPipelineGraph`: the canonical key minted for a
new node from its rounded coordinates. -/
def getNodeKey (lat lng : ℚ) : NodeKey :=
  (fixed6 lat, fixed6 lng)

/-- A directed adjacency record: `{from, to, pipelineId}` (`from` is a
Lean keyword, hence `fromKey`/`toKey`). -/
structure Edge where
  fromKey : NodeKey
  toKey : NodeKey
  pipelineId : String
deriving DecidableEq, Repr

/-- A graph-node value: `{position, edges}`. -/
structure NodeData where
  position : Pos
  edges : List Edge
deriving DecidableEq, Repr

/-- `graph.nodes`: a JS `Map` from node keys to node data. -/
abbrev NodeMap := List (NodeKey × NodeData)

/-- JS `Map.get`: the value stored at `k`, if any. -/
def alistGet {κ ν : Type} [DecidableEq κ] : List (κ × ν) → κ → Option ν
  | [], _ => none
  | (k', v) :: rest, k => if k' = k then some v else alistGet rest k

/-- JS `Map.set`: replace in place if the key exists, else append. -/
def alistSet {κ ν : Type} [DecidableEq κ] : List (κ × ν) → κ → ν → List (κ × ν)
  | [], k, v => [(k, v)]
  | (k', v') :: rest, k, v =>
    if k' = k then (k, v) :: rest else (k', v') :: alistSet rest k v

/-- Mutation of the value object stored at `k` (no-op when absent). -/
def alistUpdate {κ ν : Type} [DecidableEq κ] : List (κ × ν) → κ → (ν → ν) → List (κ × ν)
  | [], _, _ => []
  | (k', v) :: rest, k, f =>
    if k' = k then (k', f v) :: rest else (k', v) :: alistUpdate rest k f

/-- The `graph` object of `buildPipelineGraph`. -/
structure Graph where
  nodes : NodeMap
  edges : List Edge
deriving DecidableEq, Repr

/-- `findNearbyNode` of `buildPipelineGraph`: the first node in map
(insertion) order whose position is within `connectDistance`. -/
def findNearbyNode (hav : Pos → Pos → ℚ) (connectDistance : ℚ) :
    NodeMap → Pos → Option NodeKey
  | [], _ => none
  | (k, nd) :: rest, position =>
    if hav position nd.position < connectDistance then some k
    else findNearbyNode hav connectDistance rest position

/-- The per-waypoint node lookup of `buildPipelineGraph`: reuse a nearby
node's key, else mint a new node keyed by the rounded coordinates. -/
def getOrCreateNode (hav : Pos → Pos → ℚ) (connectDistance : ℚ)
    (nodes : NodeMap) (p : Pos) : NodeMap × NodeKey :=
  match findNearbyNode hav connectDistance nodes p with
  | some k => (nodes, k)
  | none =>
    let k := getNodeKey p.lat p.lng
    (alistSet nodes k ⟨p, []⟩, k)

/-- The body of the `for (let i = 0; i < nodes.length; i++)` loop of
`buildPipelineGraph`, one recursive step per index `i`: skip invalid
entries, create/reuse this waypoint's node, and when a valid next
waypoint exists add the forward and reverse adjacency records and push
the forward edge onto `graph.edges`. -/
def addWaypoints (hav : Pos → Pos → ℚ) (connectDistance : ℚ)
    (pipelineId : String) : Graph → List (Option Pos) → Graph
  | g, [] => g
  | g, none :: rest => addWaypoints hav connectDistance pipelineId g rest
  | g, some p :: rest =>
    let r1 := getOrCreateNode hav connectDistance g.nodes p
    let g1 : Graph := ⟨r1.1, g.edges⟩
    match rest with
    | [] => g1
    | none :: _ => addWaypoints hav connectDistance pipelineId g1 rest
    | some np :: _ =>
      let r2 := getOrCreateNode hav connectDistance g1.nodes np
      let e : Edge := ⟨r1.2, r2.2, pipelineId⟩
      let re : Edge := ⟨r2.2, r1.2, pipelineId⟩
      let nodes3 := alistUpdate r2.1 r1.2 (fun nd => { nd with edges := nd.edges ++ [e] })
      let nodes4 := alistUpdate nodes3 r2.2 (fun nd => { nd with edges := nd.edges ++ [re] })
      addWaypoints hav connectDistance pipelineId ⟨nodes4, g1.edges ++ [e]⟩ rest

/-- `buildPipelineGraph(pipelines, connectDistance)`: pipelines whose
waypoint data failed to parse (`none`, caught and replaced by `[]`) or
parsed to an empty array contribute nothing. -/
def buildPipelineGraph (hav : Pos → Pos → ℚ) (pipelines : List Pipeline)
    (connectDistance : ℚ) : Graph :=
  pipelines.foldl (fun g pipeline =>
    match pipeline.nodes with
    | none => g
    | some [] => g
    | some ws => addWaypoints hav connectDistance pipeline.id g ws) ⟨[], []⟩

/-- `findBlockingValve(segmentStart, segmentEnd, closedValves, maxDistance)`:
the first closed valve whose planar projection parameter onto the segment
lies inside `[0, 1]` and whose distance to the projected point is below
`maxDistance`.  Zero-length segments and valves whose projection falls
beyond an endpoint are skipped, not clamped. -/
def findBlockingValve (hav : Pos → Pos → ℚ) (segmentStart segmentEnd : Pos) :
    List Valve → ℚ → Option Valve
  | [], _ => none
  | valve :: rest, maxDistance =>
    let valvePos : Pos := ⟨valve.latitude, valve.longitude⟩
    let A := valvePos.lat - segmentStart.lat
    let B := valvePos.lng - segmentStart.lng
    let C := segmentEnd.lat - segmentStart.lat
    let D := segmentEnd.lng - segmentStart.lng
    let dotp := A * C + B * D
    let lenSq := C * C + D * D
    if lenSq = 0 then findBlockingValve hav segmentStart segmentEnd rest maxDistance
    else
      let param := dotp / lenSq
      if param < 0 ∨ param > 1 then
        findBlockingValve hav segmentStart segmentEnd rest maxDistance
      else
        let closest : Pos := ⟨segmentStart.lat + param * C, segmentStart.lng + param * D⟩
        if hav valvePos closest < maxDistance then some valve
        else findBlockingValve hav segmentStart segmentEnd rest maxDistance

/-- `distanceToSegment(point, segmentStart, segmentEnd)`: planar
projection with the parameter clamped to `[0, 1]`, then the geo distance
from `point` to the clamped closest point. -/
def distanceToSegment (hav : Pos → Pos → ℚ) (point segmentStart segmentEnd : Pos) : ℚ :=
  let A := point.lat - segmentStart.lat
  let B := point.lng - segmentStart.lng
  let C := segmentEnd.lat - segmentStart.lat
  let D := segmentEnd.lng - segmentStart.lng
  let dotp := A * C + B * D
  let lenSq := C * C + D * D
  let param := if lenSq ≠ 0 then dotp / lenSq else -1
  let closest : Pos :=
    if param < 0 then ⟨segmentStart.lat, segmentStart.lng⟩
    else if param > 1 then ⟨segmentEnd.lat, segmentEnd.lng⟩
    else ⟨segmentStart.lat + param * C, segmentStart.lng + param * D⟩
  hav point closest

/-- A flow-carrying segment as pushed onto `flowData.segments`. -/
structure Segment where
  pipelineId : String
  startPos : Pos
  endPos : Pos
  sourceTank : String
  hasFlow : Bool
  blocked : Bool
deriving DecidableEq, Repr

/-- A blocked segment as pushed onto `flowData.blockedSegments`. -/
structure BlockedSegment where
  pipelineId : String
  startPos : Pos
  endPos : Pos
  blockedBy : String
deriving DecidableEq, Repr

/-- The mutable state of the BFS in `calculateFlowPaths`: the three
dedup sets and the two output lists (shared across all tanks). -/
structure FlowState where
  visitedEdges : List (NodeKey × NodeKey)
  blockedEdges : List (NodeKey × NodeKey)
  visitedNodes : List NodeKey
  segments : List Segment
  blockedSegments : List BlockedSegment
deriving DecidableEq, Repr

/-- Position of the node stored at `k` (total stand-in for the JS
`graph.nodes.get(k).position`, which is only evaluated at keys present in
the map; see `addWaypoints_edge_endpoints_mem`). -/
def nodePos (nodes : NodeMap) (k : NodeKey) : Pos :=
  match alistGet nodes k with
  | some nd => nd.position
  | none => ⟨0, 0⟩

/-- The `currentNode.edges.forEach` body of the BFS: classify each not
yet classified edge as blocked or flowing, recording both directed keys,
and collect the enqueued far endpoints of flowing edges. -/
def processEdges (hav : Pos → Pos → ℚ) (blockDistance : ℚ) (nodes : NodeMap)
    (closedValves : List Valve) (srcTank : String) :
    List Edge → FlowState → List (NodeKey × String) → FlowState × List (NodeKey × String)
  | [], st, newQ => (st, newQ)
  | e :: rest, st, newQ =>
    let ekey := (e.fromKey, e.toKey)
    let rkey := (e.toKey, e.fromKey)
    if ekey ∈ st.visitedEdges ∨ rkey ∈ st.visitedEdges then
      processEdges hav blockDistance nodes closedValves srcTank rest st newQ
    else if ekey ∈ st.blockedEdges ∨ rkey ∈ st.blockedEdges then
      processEdges hav blockDistance nodes closedValves srcTank rest st newQ
    else
      let startPos := nodePos nodes e.fromKey
      let endPos := nodePos nodes e.toKey
      match findBlockingValve hav startPos endPos closedValves blockDistance with
      | some blockingValve =>
        processEdges hav blockDistance nodes closedValves srcTank rest
          { st with
            blockedEdges := st.blockedEdges ++ [ekey, rkey],
            blockedSegments := st.blockedSegments ++
              [⟨e.pipelineId, startPos, endPos, blockingValve.name⟩] } newQ
      | none =>
        processEdges hav blockDistance nodes closedValves srcTank rest
          { st with
            visitedEdges := st.visitedEdges ++ [ekey, rkey],
            segments := st.segments ++
              [⟨e.pipelineId, startPos, endPos, srcTank, true, false⟩] }
          (newQ ++ [(e.toKey, srcTank)])

/-- Number of keys of `keys` not yet in `visited` (BFS termination measure). -/
def unvisited {α : Type} [DecidableEq α] (keys visited : List α) : ℕ :=
  (keys.filter (fun x => !(decide (x ∈ visited)))).length

theorem unvisited_filter_sub {α : Type} [DecidableEq α] (keys visited : List α) (k : α) :
    List.Sublist (keys.filter (fun x => !(decide (x ∈ (k :: visited)))))
      (keys.filter (fun x => !(decide (x ∈ visited)))) := by
  apply List.monotone_filter_right
  intro y hy
  simp only [Bool.not_eq_true', decide_eq_false_iff_not, List.mem_cons, not_or] at hy ⊢
  exact hy.2

theorem unvisited_le_cons {α : Type} [DecidableEq α] (keys visited : List α) (k : α) :
    unvisited keys (k :: visited) ≤ unvisited keys visited :=
  (unvisited_filter_sub keys visited k).length_le

theorem length_lt_of_sublist_ne {α : Type} {l₁ l₂ : List α}
    (h : List.Sublist l₁ l₂) (hne : l₁ ≠ l₂) : l₁.length < l₂.length :=
  lt_of_le_of_ne h.length_le (fun hl => hne (h.eq_of_length hl))

theorem unvisited_lt_cons {α : Type} [DecidableEq α] (keys visited : List α) (k : α)
    (hk : k ∈ keys) (hnv : ¬ k ∈ visited) :
    unvisited keys (k :: visited) < unvisited keys visited := by
  apply length_lt_of_sublist_ne (unvisited_filter_sub keys visited k)
  intro hEq
  have h1 : k ∈ keys.filter (fun x => !(decide (x ∈ visited))) := by
    simp [List.mem_filter, hk, hnv]
  rw [← hEq] at h1
  simp [List.mem_filter] at h1

theorem unvisited_cons_eq_of_not_mem {α : Type} [DecidableEq α]
    (keys visited : List α) (k : α) (hk : ¬ k ∈ keys) :
    unvisited keys (k :: visited) = unvisited keys visited := by
  unfold unvisited
  congr 1
  apply List.filter_congr
  intro y hy
  have hyk : y ≠ k := fun h => hk (h ▸ hy)
  simp [List.mem_cons, hyk]

theorem alistGet_none_not_mem {κ ν : Type} [DecidableEq κ]
    {m : List (κ × ν)} {k : κ} (h : alistGet m k = none) : ¬ k ∈ m.map Prod.fst := by
  induction m with
  | nil => simp
  | cons e rest ih =>
    rw [alistGet] at h
    by_cases hk : e.1 = k
    · simp [hk] at h
    · rw [if_neg hk] at h
      simp only [List.map_cons, List.mem_cons]
      rintro (h1 | h2)
      · exact hk h1.symm
      · exact ih h h2

theorem alistGet_some_mem {κ ν : Type} [DecidableEq κ]
    {m : List (κ × ν)} {k : κ} {v : ν} (h : alistGet m k = some v) :
    k ∈ m.map Prod.fst := by
  induction m with
  | nil => simp [alistGet] at h
  | cons e rest ih =>
    rw [alistGet] at h
    by_cases hk : e.1 = k
    · simp [hk]
    · rw [if_neg hk] at h
      exact List.mem_cons_of_mem _ (ih h)

theorem processEdges_visitedNodes (hav : Pos → Pos → ℚ) (blockDistance : ℚ)
    (nodes : NodeMap) (closedValves : List Valve) (srcTank : String) :
    ∀ (es : List Edge) (st : FlowState) (q : List (NodeKey × String)),
      (processEdges hav blockDistance nodes closedValves srcTank es st q).1.visitedNodes =
        st.visitedNodes := by
  intro es
  induction es with
  | nil => intro st q; rfl
  | cons e rest ih =>
    intro st q
    rw [processEdges]
    by_cases h1 : (e.fromKey, e.toKey) ∈ st.visitedEdges ∨ (e.toKey, e.fromKey) ∈ st.visitedEdges
    · rw [if_pos h1]; exact ih st q
    · rw [if_neg h1]
      by_cases h2 : (e.fromKey, e.toKey) ∈ st.blockedEdges ∨ (e.toKey, e.fromKey) ∈ st.blockedEdges
      · rw [if_pos h2]; exact ih st q
      · rw [if_neg h2]
        dsimp only
        cases h3 : findBlockingValve hav (nodePos nodes e.fromKey) (nodePos nodes e.toKey)
          closedValves blockDistance with
        | none => exact ih _ _
        | some blockingValve => exact ih _ _

/-- The `while (queue.length > 0)` BFS loop of `calculateFlowPaths`:
dequeue, skip already-visited nodes, otherwise mark visited and classify
the node's adjacent edges, enqueueing flowing far endpoints. -/
theorem alistGet_isSome_mem {κ ν : Type} [DecidableEq κ]
    {m : List (κ × ν)} {k : κ} (h : (alistGet m k).isSome) : k ∈ m.map Prod.fst := by
  rcases Option.isSome_iff_exists.mp h with ⟨v, hv⟩
  exact alistGet_some_mem hv

def bfsLoop (hav : Pos → Pos → ℚ) (blockDistance : ℚ) (nodes : NodeMap)
    (closedValves : List Valve) :
    List (NodeKey × String) → FlowState → FlowState
  | [], st => st
  | (k, src) :: rest, st =>
    if k ∈ st.visitedNodes then bfsLoop hav blockDistance nodes closedValves rest st
    else
      let st1 := { st with visitedNodes := k :: st.visitedNodes }
      if hk : (alistGet nodes k).isSome then
        let nd := (alistGet nodes k).get hk
        let r := processEdges hav blockDistance nodes closedValves src nd.edges st1 []
        bfsLoop hav blockDistance nodes closedValves (rest ++ r.2) r.1
      else bfsLoop hav blockDistance nodes closedValves rest st1
termination_by q st => (unvisited (nodes.map Prod.fst) st.visitedNodes, q.length)
decreasing_by
  · apply Prod.Lex.right
    simp
  · apply Prod.Lex.left
    rw [processEdges_visitedNodes]
    exact unvisited_lt_cons _ _ _ (alistGet_isSome_mem hk) (by assumption)
  · rcases lt_or_eq_of_le (unvisited_le_cons (nodes.map Prod.fst) st.visitedNodes k) with
      hlt | heq
    · exact Prod.Lex.left _ _ hlt
    · rw [heq]
      apply Prod.Lex.right
      simp

/-- The seeding loop of `calculateFlowPaths`: every graph node within
`connectDistance` of the tank position, labelled with the tank name, in
map (insertion) order. -/
def seedQueue (hav : Pos → Pos → ℚ) (connectDistance : ℚ) (tankPos : Pos)
    (tname : String) : NodeMap → List (NodeKey × String)
  | [] => []
  | (k, nd) :: rest =>
    (if hav tankPos nd.position < connectDistance then [(k, tname)] else []) ++
      seedQueue hav connectDistance tankPos tname rest

/-- The value returned by `calculateFlowPaths`. -/
structure FlowData where
  segments : List Segment
  blockedSegments : List BlockedSegment
  totalSegments : ℤ
deriving DecidableEq, Repr

/-- The final `pipelines.forEach` of `calculateFlowPaths`:
`totalSegments += JSON.parse(pipeline.nodes).length - 1`, with NO
try/catch — a pipeline whose stored waypoints do not parse throws,
aborting the whole computation. -/
def totalSegmentsCount : List Pipeline → ℤ → Except String ℤ
  | [], acc => Except.ok acc
  | p :: rest, acc =>
    match p.nodes with
    | none => Except.error "SyntaxError: JSON.parse"
    | some ws => totalSegmentsCount rest (acc + ((ws.length : ℤ) - 1))

/-- `calculateFlowPaths(tanks, valves, pipelines)` with
`CONNECT_DISTANCE = 50` and `VALVE_BLOCK_DISTANCE = 3`. -/
def calculateFlowPaths (hav : Pos → Pos → ℚ) (tanks : List Tank)
    (valves : List Valve) (pipelines : List Pipeline) : Except String FlowData :=
  let activeTanks := tanks.filter (·.isActive)
  if activeTanks.isEmpty then Except.ok ⟨[], [], 0⟩
  else
    let graph := buildPipelineGraph hav pipelines 50
    let closedValves := valves.filter (fun v => !v.isOpen)
    let finalSt := activeTanks.foldl (fun st tank =>
      bfsLoop hav 3 graph.nodes closedValves
        (seedQueue hav 50 ⟨tank.latitude, tank.longitude⟩ tank.name graph.nodes) st)
      ⟨[], [], [], [], []⟩
    (totalSegmentsCount pipelines 0).map
      (fun ts => ⟨finalSt.segments, finalSt.blockedSegments, ts⟩)

/-- The inner segment scan of `findConnectedPipelines`: true when some
consecutive pair of valid waypoints has `distanceToSegment` below 15 m. -/
def hasSegmentWithin (hav : Pos → Pos → ℚ) (valvePos : Pos) :
    List (Option Pos) → Bool
  | some a :: some b :: rest =>
    if distanceToSegment hav valvePos a b < 15 then true
    else hasSegmentWithin hav valvePos (some b :: rest)
  | _ :: rest => hasSegmentWithin hav valvePos rest
  | [] => false

/-- `findConnectedPipelines(valve, pipelines)`: pipelines with a parsed
waypoint array containing a sub-segment within 15 m of the valve. -/
def findConnectedPipelines (hav : Pos → Pos → ℚ) (valve : Valve)
    (pipelines : List Pipeline) : List Pipeline :=
  pipelines.filter (fun pipe =>
    match pipe.nodes with
    | none => false
    | some ws => hasSegmentWithin hav ⟨valve.latitude, valve.longitude⟩ ws)

/-- `flowData.segments.some(s => s.pipelineId === pipe.id)`. -/
def pipelineHasFlow (segments : List Segment) (pid : String) : Bool :=
  match segments with
  | [] => false
  | s :: rest => if s.pipelineId = pid then true else pipelineHasFlow rest pid

/-- A valve-tree node as stored in the `valveTree` map of
`calculateSupplyOverview`; `directFlow` is `none` until (and unless) the
distribution step assigns it. -/
structure VTNode where
  valve : Valve
  children : List Valve
  totalHouseholds : ℚ
  directHouseholds : ℚ
  servedHouseholds : ℚ
  totalFlow : ℚ
  directFlow : Option ℚ
deriving DecidableEq, Repr

/-- The `valveTree` JS `Map`, keyed by `valveId`. -/
abbrev ValveTree := List (String × VTNode)

/-- `valves.filter(v => v.category === 'main')`. -/
def mainValvesOf (valves : List Valve) : List Valve :=
  valves.filter (fun v => decide (v.category = "main"))

/-- `valves.filter(v => v.category === 'sub')`. -/
def subValvesOf (valves : List Valve) : List Valve :=
  valves.filter (fun v => decide (v.category = "sub"))

/-- The fresh tree entry created for a main valve: children matched by
`parentValveId`, `totalHouseholds` and (provisionally) `directHouseholds`
set to the valve's households. -/
def initTreeNode (subValves : List Valve) (valve : Valve) : VTNode :=
  { valve := valve
    children := subValves.filter (fun sv => decide (sv.parentValveId = some valve.valveId))
    totalHouseholds := valve.households
    directHouseholds := valve.households
    servedHouseholds := 0
    totalFlow := 0
    directFlow := none }

/-- The first `mainValves.forEach` of `calculateSupplyOverview`: one tree
entry per main valve. -/
def buildValveTree (mainValves subValves : List Valve) : ValveTree :=
  mainValves.foldl (fun vt valve => alistSet vt valve.valveId (initTreeNode subValves valve)) []

/-- The second `mainValves.forEach`:
`directHouseholds = max(0, totalHouseholds - Σ children.households)`. -/
def applyDirectHouseholds (mainValves : List Valve) (vt : ValveTree) : ValveTree :=
  mainValves.foldl (fun vt mainValve =>
    match alistGet vt mainValve.valveId with
    | none => vt
    | some node =>
      let subValvesTotal := node.children.foldl (fun sum child => sum + child.households) 0
      alistSet vt mainValve.valveId
        { node with directHouseholds := max 0 (node.totalHouseholds - subValvesTotal) }) vt

/-- The step-4 estimate for one open valve: `Σ capacity * 0.8` over its
connected flowing pipelines (the `connectedPipelines.reduce` of the
source). -/
def step4Flow (hav : Pos → Pos → ℚ) (segments : List Segment)
    (pipelines : List Pipeline) (valve : Valve) : ℚ :=
  (findConnectedPipelines hav valve pipelines).foldl
    (fun sum pipe =>
      sum + (if pipelineHasFlow segments pipe.id then pipe.capacity * (4/5) else 0)) 0

/-- The flow-estimation update of one tree node: an open valve's
`totalFlow` becomes its `step4Flow` estimate, a closed valve's 0. -/
def nodeFlowUpdate (hav : Pos → Pos → ℚ) (segments : List Segment)
    (pipelines : List Pipeline) (n : VTNode) : VTNode :=
  if n.valve.isOpen then { n with totalFlow := step4Flow hav segments pipelines n.valve }
  else { n with totalFlow := 0 }

/-- The `valveTree.forEach` flow-estimation step. -/
def applyFlowEstimates (hav : Pos → Pos → ℚ) (segments : List Segment)
    (pipelines : List Pipeline) (vt : ValveTree) : ValveTree :=
  vt.map (fun entry => (entry.1, nodeFlowUpdate hav segments pipelines entry.2))

/-- The scalar accumulators of the distribution `forEach`. -/
structure DistAcc where
  totalHouseholds : ℚ
  servedHouseholds : ℚ
  totalFlow : ℚ
deriving DecidableEq, Repr

/-- The `openChildren.forEach` of the distribution step: attempt to
overwrite each open child's tree entry with its proportional flow share
(the lookup is by the child's `valveId` and silently misses when the
child is not itself a tree key). -/
def overwriteChildren (openChildren : List Valve) (flowPerHousehold : ℚ)
    (m : ValveTree) : ValveTree :=
  openChildren.foldl (fun m child =>
    match alistGet m child.valveId with
    | none => m
    | some childNode =>
      alistSet m child.valveId
        { childNode with totalFlow := child.households * flowPerHousehold }) m

/-- One iteration of the distribution `valveTree.forEach` (lines 640-668
of the source), acting on the tree entry stored at `key`: accumulate
`totalHouseholds`; for an open valve with positive open households set
`servedHouseholds = min(openHouseholds, floor(totalFlow / 10))`,
`directFlow = directHouseholds * (totalFlow / openHouseholds)`, and
attempt to overwrite each open child's tree entry (a lookup by the
child's `valveId`, which misses whenever the child is not itself a tree
key); finally accumulate the entry's (possibly overwritten) flow. -/
def distributeStep (vt : ValveTree) (acc : DistAcc) (key : String) :
    ValveTree × DistAcc :=
  match alistGet vt key with
  | none => (vt, acc)
  | some node =>
    let acc1 := { acc with totalHouseholds := acc.totalHouseholds + node.totalHouseholds }
    if node.valve.isOpen then
      let openChildren := node.children.filter (·.isOpen)
      let childrenHouseholds := openChildren.foldl (fun sum c => sum + c.households) 0
      let totalOpenHouseholds := node.directHouseholds + childrenHouseholds
      if totalOpenHouseholds > 0 then
        let served := min totalOpenHouseholds ((⌊node.totalFlow / 10⌋ : ℤ) : ℚ)
        let acc2 := { acc1 with servedHouseholds := acc1.servedHouseholds + served }
        let flowPerHousehold := node.totalFlow / totalOpenHouseholds
        let vt1 := alistSet vt key
          { node with
            servedHouseholds := served
            directFlow := some (node.directHouseholds * flowPerHousehold) }
        let vt2 := overwriteChildren openChildren flowPerHousehold vt1
        let flowNow := match alistGet vt2 key with
          | none => 0
          | some n => n.totalFlow
        (vt2, { acc2 with totalFlow := acc2.totalFlow + flowNow })
      else (vt, { acc1 with totalFlow := acc1.totalFlow + node.totalFlow })
    else (vt, { acc1 with totalFlow := acc1.totalFlow + node.totalFlow })

/-- The whole distribution `forEach`, iterating over the tree's keys in
insertion order while threading the mutated tree and the accumulators. -/
def distributeFlows (vt : ValveTree) : ValveTree × DistAcc :=
  (vt.map Prod.fst).foldl (fun p key => distributeStep p.1 p.2 key) (vt, ⟨0, 0, 0⟩)

/-- A valve summary pushed onto a region's `valves` array (the JS object
spread is modelled by keeping the whole valve record plus the added
fields). -/
structure RegionValve where
  valve : Valve
  flow : ℚ
  servedHouseholds : ℚ
deriving DecidableEq, Repr

/-- A regional aggregation bucket. -/
structure Region where
  name : String
  valves : List RegionValve
  totalHouseholds : ℚ
  servedHouseholds : ℚ
  totalFlow : ℚ
deriving DecidableEq, Repr

/-- The `valves.forEach` regions builder: a bucket is created for every
valve's `mandal`, but a valve's data is added only when the valve has a
valve-tree entry (`if (node)`), i.e. only for main valves.  The JS
`node.servedHouseholds || 0` is the identity on numbers modelled here. -/
def buildRegions (valves : List Valve) (vt : ValveTree) : List (String × Region) :=
  valves.foldl (fun regions valve =>
    let regions1 :=
      if (alistGet regions valve.mandal).isSome then regions
      else alistSet regions valve.mandal ⟨valve.mandal, [], 0, 0, 0⟩
    match alistGet vt valve.valveId with
    | none => regions1
    | some node =>
      alistUpdate regions1 valve.mandal (fun r =>
        { r with
          valves := r.valves ++ [⟨valve, node.totalFlow, node.servedHouseholds⟩]
          totalHouseholds := r.totalHouseholds + valve.households
          servedHouseholds := r.servedHouseholds + node.servedHouseholds
          totalFlow := r.totalFlow + node.totalFlow })) []

/-- The `stats` object of the supply overview. -/
structure SupplyStats where
  totalHouseholds : ℚ
  servedHouseholds : ℚ
  coverage : ℚ
  totalFlow : ℚ
  avgSupplyPerHousehold : ℚ
  mainValves : ℕ
  subValves : ℕ
  activeTanks : ℕ
deriving DecidableEq, Repr

/-- The value returned by `calculateSupplyOverview`. -/
structure SupplyOverview where
  stats : SupplyStats
  regions : List Region
  valveTree : List VTNode
deriving DecidableEq, Repr

/-- `parseFloat(x.toFixed(d))` for `pow = 10^d`: round to `d` decimals,
ties away from zero (negative values are formatted as `-` plus the
rounding of the absolute value). -/
def jsToFixed (pow : ℚ) (x : ℚ) : ℚ :=
  if x < 0 then -(((⌊(-x) * pow + 1/2⌋ : ℤ) : ℚ) / pow)
  else ((⌊x * pow + 1/2⌋ : ℤ) : ℚ) / pow

/-- The body of `calculateSupplyOverview` after the flow calculation has
succeeded: build the valve tree, estimate and distribute flow, and
aggregate stats and regions. -/
def supplyFromFlow (hav : Pos → Pos → ℚ) (tanks : List Tank) (valves : List Valve)
    (pipelines : List Pipeline) (flowData : FlowData) : SupplyOverview :=
  let mainValves := mainValvesOf valves
  let subValves := subValvesOf valves
  let vt0 := buildValveTree mainValves subValves
  let vt1 := applyDirectHouseholds mainValves vt0
  let vt2 := applyFlowEstimates hav flowData.segments pipelines vt1
  let r := distributeFlows vt2
  let coverage :=
    if r.2.totalHouseholds > 0 then (r.2.servedHouseholds / r.2.totalHouseholds) * 100 else 0
  let avgSupplyPerHousehold :=
    if r.2.servedHouseholds > 0 then r.2.totalFlow / r.2.servedHouseholds else 0
  let regions := buildRegions valves r.1
  { stats :=
      { totalHouseholds := r.2.totalHouseholds
        servedHouseholds := r.2.servedHouseholds
        coverage := jsToFixed 10 coverage
        totalFlow := jsToFixed 1 r.2.totalFlow
        avgSupplyPerHousehold := jsToFixed 10 avgSupplyPerHousehold
        mainValves := mainValves.length
        subValves := subValves.length
        activeTanks := (tanks.filter (·.isActive)).length }
    regions := regions.map Prod.snd
    valveTree := r.1.map Prod.snd }

/-- `calculateSupplyOverview(tanks, valves, pipelines)`: run the flow
calculation (whose exception, if any, propagates), then derive the
overview from its output. -/
def calculateSupplyOverview (hav : Pos → Pos → ℚ) (tanks : List Tank)
    (valves : List Valve) (pipelines : List Pipeline) :
    Except String SupplyOverview :=
  match calculateFlowPaths hav tanks valves pipelines with
  | Except.error e => Except.error e
  | Except.ok flowData => Except.ok (supplyFromFlow hav tanks valves pipelines flowData)

/-- Spec-side quantity for Scenario D: the sum of `(waypointCount - 1)`
over the supplied pipelines (modelled from the spec's description of
`totalSegments`). -/
def waypointSegSum (pipelines : List Pipeline) : ℤ :=
  pipelines.foldl (fun acc p => acc + (((p.nodes.getD []).length : ℤ) - 1)) 0

/-! Concrete fixtures used by witnesses and counterexamples.  All
geometry lies on the equator along one axis, where `linDist` and the
haversine agree on every comparison made. -/

/-- An active tank at the origin. -/
def tankT : Tank := ⟨"T", 0, 0, true⟩

/-- A two-waypoint pipeline from the origin heading 0.001° east
(about 111 m), capacity 625. -/
def pipe1 : Pipeline := ⟨"p1", 625, some [some ⟨0, 0⟩, some ⟨0, 1/1000⟩]⟩

/-- Scenario C main valve: 100 households, open, at the pipeline midpoint. -/
def valveM : Valve := ⟨"m1", "M", "main", none, 100, "R", 0, 1/2000, true⟩

/-- Scenario C sub valve: 40 households, open, child of `m1`, far away. -/
def valveS : Valve := ⟨"s1", "S", "sub", some "m1", 40, "R", 50, 50, true⟩

/-- A main valve with fewer households (10) than its sub child. -/
def valveM3 : Valve := ⟨"m1", "M", "main", none, 10, "R", 0, 1/2000, true⟩

/-- The same pipeline as `pipe1` with capacity 5000. -/
def pipe3 : Pipeline := ⟨"p1", 5000, some [some ⟨0, 0⟩, some ⟨0, 1/1000⟩]⟩

/-- A pipeline whose stored waypoint string does not parse. -/
def badPipe : Pipeline := ⟨"bad", 10, none⟩

/-- A sub valve whose `parentValveId` references no existing valve. -/
def valveSg : Valve := ⟨"s1", "S", "sub", some "ghost", 7, "R", 50, 50, true⟩

/-- A three-waypoint pipeline: the second pair of consecutive waypoints
lies within the 50 m connect distance of each other, but the third
waypoint is even closer to the first node. -/
def pipe10 : Pipeline := ⟨"p1", 100, some [some ⟨0, 0⟩, some ⟨0, 3/5000⟩, some ⟨0, 1/5000⟩]⟩

/-- A closed valve just west of the origin: its projection onto `pipe1`'s
segment falls before the start endpoint (parameter < 0) while it lies
about 0.11 m from that endpoint. -/
def valveV5 : Valve := ⟨"v5", "V5", "main", none, 0, "R", 0, -1/1000000, false⟩

/-! ## Association-list helper lemmas -/

theorem alistGet_some_mem_pair {κ ν : Type} [DecidableEq κ]
    {m : List (κ × ν)} {k : κ} {v : ν} (h : alistGet m k = some v) : (k, v) ∈ m := by
  induction m with
  | nil => simp [alistGet] at h
  | cons e rest ih =>
    rw [alistGet] at h
    by_cases hk : e.1 = k
    · rw [if_pos hk] at h
      injection h with h
      have hkv : (k, v) = e := by rw [← hk, ← h]
      rw [hkv]
      exact List.mem_cons_self _ _
    · rw [if_neg hk] at h
      exact List.mem_cons_of_mem _ (ih h)

theorem alistGet_set_self {κ ν : Type} [DecidableEq κ]
    (m : List (κ × ν)) (k : κ) (v : ν) : alistGet (alistSet m k v) k = some v := by
  induction m with
  | nil => simp [alistGet, alistSet]
  | cons e rest ih =>
    rw [alistSet]
    by_cases hk : e.1 = k
    · rw [if_pos hk, alistGet, if_pos rfl]
    · rw [if_neg hk, alistGet, if_neg hk]
      exact ih

theorem alistGet_set_ne {κ ν : Type} [DecidableEq κ]
    (m : List (κ × ν)) (k k' : κ) (v : ν) (h : k ≠ k') :
    alistGet (alistSet m k v) k' = alistGet m k' := by
  induction m with
  | nil => simp [alistGet, alistSet, h]
  | cons e rest ih =>
    rw [alistSet]
    by_cases hk : e.1 = k
    · rw [if_pos hk, alistGet, if_neg h, alistGet, if_neg (hk ▸ h)]
    · rw [if_neg hk, alistGet, alistGet]
      by_cases hk' : e.1 = k'
      · rw [if_pos hk', if_pos hk']
      · rw [if_neg hk', if_neg hk', ih]

theorem alistSet_mem_cases {κ ν : Type} [DecidableEq κ]
    {m : List (κ × ν)} {k : κ} {v : ν} {e' : κ × ν} (h : e' ∈ alistSet m k v) :
    e' = (k, v) ∨ e' ∈ m := by
  induction m with
  | nil => simpa [alistSet] using h
  | cons e rest ih =>
    rw [alistSet] at h
    by_cases hk : e.1 = k
    · rw [if_pos hk] at h
      rcases List.mem_cons.mp h with h1 | h1
      · exact Or.inl h1
      · exact Or.inr (List.mem_cons_of_mem _ h1)
    · rw [if_neg hk] at h
      rcases List.mem_cons.mp h with h1 | h1
      · exact Or.inr (h1 ▸ List.mem_cons_self _ _)
      · rcases ih h1 with h2 | h2
        · exact Or.inl h2
        · exact Or.inr (List.mem_cons_of_mem _ h2)

theorem alistUpdate_mem_cases {κ ν : Type} [DecidableEq κ]
    {m : List (κ × ν)} {k : κ} {f : ν → ν} {e' : κ × ν} (h : e' ∈ alistUpdate m k f) :
    e' ∈ m ∨ ∃ v, (k, v) ∈ m ∧ e' = (k, f v) := by
  induction m with
  | nil => simpa [alistUpdate] using h
  | cons e rest ih =>
    rw [alistUpdate] at h
    by_cases hk : e.1 = k
    · rw [if_pos hk] at h
      rcases List.mem_cons.mp h with h1 | h1
      · right
        refine ⟨e.2, ?_, ?_⟩
        · rw [← hk]
          exact List.mem_cons_self _ _
        · rw [h1, hk]
      · exact Or.inl (List.mem_cons_of_mem _ h1)
    · rw [if_neg hk] at h
      rcases List.mem_cons.mp h with h1 | h1
      · exact Or.inl (h1 ▸ List.mem_cons_self _ _)
      · rcases ih h1 with h2 | h2
        · exact Or.inl (List.mem_cons_of_mem _ h2)
        · rcases h2 with ⟨v, hv, he⟩
          exact Or.inr ⟨v, List.mem_cons_of_mem _ hv, he⟩

theorem alistUpdate_keys {κ ν : Type} [DecidableEq κ]
    (m : List (κ × ν)) (k : κ) (f : ν → ν) :
    (alistUpdate m k f).map Prod.fst = m.map Prod.fst := by
  induction m with
  | nil => rfl
  | cons e rest ih =>
    rw [alistUpdate]
    by_cases hk : e.1 = k
    · rw [if_pos hk]
      rfl
    · rw [if_neg hk]
      simp [ih]

theorem alistGet_update_self {κ ν : Type} [DecidableEq κ]
    (m : List (κ × ν)) (k : κ) (f : ν → ν) :
    alistGet (alistUpdate m k f) k = (alistGet m k).map f := by
  induction m with
  | nil => simp [alistGet, alistUpdate]
  | cons e rest ih =>
    rw [alistUpdate]
    by_cases hk : e.1 = k
    · rw [if_pos hk, alistGet, if_pos hk, alistGet, if_pos hk]
      rfl
    · rw [if_neg hk, alistGet, if_neg hk, alistGet, if_neg hk, ih]

theorem alistGet_update_ne {κ ν : Type} [DecidableEq κ]
    (m : List (κ × ν)) (k k' : κ) (f : ν → ν) (h : k ≠ k') :
    alistGet (alistUpdate m k f) k' = alistGet m k' := by
  induction m with
  | nil => rfl
  | cons e rest ih =>
    rw [alistUpdate]
    by_cases hk : e.1 = k
    · rw [if_pos hk, alistGet, alistGet, if_neg (hk ▸ h), if_neg (hk ▸ h)]
    · rw [if_neg hk, alistGet, alistGet]
      by_cases hk' : e.1 = k'
      · rw [if_pos hk', if_pos hk']
      · rw [if_neg hk', if_neg hk', ih]

theorem alistSet_keys_mem {κ ν : Type} [DecidableEq κ]
    (m : List (κ × ν)) (k : κ) (v : ν) {k' : κ} (h : k' ∈ m.map Prod.fst) :
    k' ∈ (alistSet m k v).map Prod.fst := by
  induction m with
  | nil => simp at h
  | cons e rest ih =>
    simp only [List.map_cons, List.mem_cons] at h
    rw [alistSet]
    by_cases hk : e.1 = k
    · rw [if_pos hk]
      simp only [List.map_cons, List.mem_cons]
      rcases h with h1 | h1
      · exact Or.inl (h1.trans hk)
      · exact Or.inr h1
    · rw [if_neg hk]
      simp only [List.map_cons, List.mem_cons]
      rcases h with h1 | h1
      · exact Or.inl h1
      · exact Or.inr (ih h1)

theorem alistSet_key_mem {κ ν : Type} [DecidableEq κ]
    (m : List (κ × ν)) (k : κ) (v : ν) : k ∈ (alistSet m k v).map Prod.fst := by
  induction m with
  | nil => simp [alistSet]
  | cons e rest ih =>
    rw [alistSet]
    by_cases hk : e.1 = k
    · rw [if_pos hk]
      simp
    · rw [if_neg hk]
      simp only [List.map_cons, List.mem_cons]
      exact Or.inr ih

/-- A closed valve exactly at `pipe1`'s midpoint (projection parameter
1/2, distance 0): it blocks the pipeline's only segment. -/
def valveVB : Valve := ⟨"vb", "VB", "main", none, 0, "R", 0, 1/2000, false⟩

/-! ## Claims -/

/-- C1, amended: for every input with no active tank, `calculateFlowPaths`
returns early with an empty flowing list, an empty blocked list, and
`totalSegments = 0` (not the sum of `(waypointCount - 1)` over the
supplied pipelines, which is never computed on this path). -/
theorem c1_no_active_tanks_empty_and_zero_total (hav : Pos → Pos → ℚ)
    (tanks : List Tank) (valves : List Valve) (pipelines : List Pipeline)
    (h : tanks.filter (·.isActive) = []) :
    calculateFlowPaths hav tanks valves pipelines = Except.ok ⟨[], [], 0⟩ := by
  unfold calculateFlowPaths
  rw [h]
  rfl

/-- C1, witness for the amended theorem at a concrete input. -/
theorem c1_no_active_tanks_empty_and_zero_total_witness :
    calculateFlowPaths linDist [] [] [pipe1] = Except.ok ⟨[], [], 0⟩ :=
  c1_no_active_tanks_empty_and_zero_total linDist [] [] [pipe1] rfl

/-- C1, counterexample to the claim as stated: with no tanks and one
active two-waypoint pipeline, the claim predicts
`totalSegments = Σ (waypointCount - 1) = 1`, but the code returns
`totalSegments = 0`. -/
theorem c1_counterexample :
    calculateFlowPaths linDist [] [] [pipe1] = Except.ok ⟨[], [], 0⟩ ∧
      waypointSegSum [pipe1] = 1 ∧ (0 : ℤ) ≠ 1 := by
  refine ⟨rfl, rfl, by decide⟩

/-- Spec-side blocking predicate, following the amended wording of C5:
a valve blocks a segment exactly when the segment has nonzero squared
planar length, the valve's projection parameter onto the segment's line
lies inside `[0, 1]` (valves projecting beyond an endpoint are skipped,
not clamped), and the geo distance from the valve to the projected point
is below the block distance. -/
def blocksWithinSegment (hav : Pos → Pos → ℚ) (segmentStart segmentEnd : Pos)
    (valve : Valve) (maxDistance : ℚ) : Prop :=
  let A := valve.latitude - segmentStart.lat
  let B := valve.longitude - segmentStart.lng
  let C := segmentEnd.lat - segmentStart.lat
  let D := segmentEnd.lng - segmentStart.lng
  let dotp := A * C + B * D
  let lenSq := C * C + D * D
  lenSq ≠ 0 ∧ 0 ≤ dotp / lenSq ∧ dotp / lenSq ≤ 1 ∧
    hav ⟨valve.latitude, valve.longitude⟩
      ⟨segmentStart.lat + (dotp / lenSq) * C, segmentStart.lng + (dotp / lenSq) * D⟩ <
      maxDistance

/-- C5, amended: a segment is reported blocked by `findBlockingValve`
exactly when some closed valve in the list satisfies the in-segment
projection rule `blocksWithinSegment`; the projection parameter is NOT
clamped — a valve whose projection falls outside `[0, 1]` is skipped
even when it is within the block distance of an endpoint. -/
theorem c5_blocking_iff_within_segment_projection (hav : Pos → Pos → ℚ)
    (segmentStart segmentEnd : Pos) (closedValves : List Valve) (maxDistance : ℚ) :
    (findBlockingValve hav segmentStart segmentEnd closedValves maxDistance).isSome ↔
      ∃ v ∈ closedValves, blocksWithinSegment hav segmentStart segmentEnd v maxDistance := by
  induction closedValves with
  | nil => simp [findBlockingValve]
  | cons valve rest ih =>
    rw [findBlockingValve]
    dsimp only
    by_cases h0 : (segmentEnd.lat - segmentStart.lat) * (segmentEnd.lat - segmentStart.lat) +
        (segmentEnd.lng - segmentStart.lng) * (segmentEnd.lng - segmentStart.lng) = 0
    · rw [if_pos h0, ih]
      constructor
      · rintro ⟨v, hv, hb⟩
        exact ⟨v, List.mem_cons_of_mem _ hv, hb⟩
      · rintro ⟨v, hv, hb⟩
        rcases List.mem_cons.mp hv with rfl | hv'
        · exact absurd h0 hb.1
        · exact ⟨v, hv', hb⟩
    · rw [if_neg h0]
      by_cases h1 : ((valve.latitude - segmentStart.lat) * (segmentEnd.lat - segmentStart.lat) +
            (valve.longitude - segmentStart.lng) * (segmentEnd.lng - segmentStart.lng)) /
            ((segmentEnd.lat - segmentStart.lat) * (segmentEnd.lat - segmentStart.lat) +
            (segmentEnd.lng - segmentStart.lng) * (segmentEnd.lng - segmentStart.lng)) < 0 ∨
          ((valve.latitude - segmentStart.lat) * (segmentEnd.lat - segmentStart.lat) +
            (valve.longitude - segmentStart.lng) * (segmentEnd.lng - segmentStart.lng)) /
            ((segmentEnd.lat - segmentStart.lat) * (segmentEnd.lat - segmentStart.lat) +
            (segmentEnd.lng - segmentStart.lng) * (segmentEnd.lng - segmentStart.lng)) > 1
      · rw [if_pos h1, ih]
        constructor
        · rintro ⟨v, hv, hb⟩
          exact ⟨v, List.mem_cons_of_mem _ hv, hb⟩
        · rintro ⟨v, hv, hb⟩
          rcases List.mem_cons.mp hv with rfl | hv'
          · rcases hb with ⟨-, hb2, hb3, -⟩
            rcases h1 with h1 | h1
            · exact absurd hb2 (not_le.mpr h1)
            · exact absurd hb3 (not_le.mpr h1)
          · exact ⟨v, hv', hb⟩
      · rw [if_neg h1]
        push_neg at h1
        by_cases h2 : hav ⟨valve.latitude, valve.longitude⟩
            ⟨segmentStart.lat + (((valve.latitude - segmentStart.lat) * (segmentEnd.lat - segmentStart.lat) +
              (valve.longitude - segmentStart.lng) * (segmentEnd.lng - segmentStart.lng)) /
              ((segmentEnd.lat - segmentStart.lat) * (segmentEnd.lat - segmentStart.lat) +
              (segmentEnd.lng - segmentStart.lng) * (segmentEnd.lng - segmentStart.lng))) *
              (segmentEnd.lat - segmentStart.lat),
             segmentStart.lng + (((valve.latitude - segmentStart.lat) * (segmentEnd.lat - segmentStart.lat) +
              (valve.longitude - segmentStart.lng) * (segmentEnd.lng - segmentStart.lng)) /
              ((segmentEnd.lat - segmentStart.lat) * (segmentEnd.lat - segmentStart.lat) +
              (segmentEnd.lng - segmentStart.lng) * (segmentEnd.lng - segmentStart.lng))) *
              (segmentEnd.lng - segmentStart.lng)⟩ < maxDistance
        · rw [if_pos h2]
          simp only [Option.isSome_some, true_iff]
          exact ⟨valve, List.mem_cons_self _ _, h0, h1.1, h1.2, h2⟩
        · rw [if_neg h2, ih]
          constructor
          · rintro ⟨v, hv, hb⟩
            exact ⟨v, List.mem_cons_of_mem _ hv, hb⟩
          · rintro ⟨v, hv, hb⟩
            rcases List.mem_cons.mp hv with rfl | hv'
            · exact absurd hb.2.2.2 h2
            · exact ⟨v, hv', hb⟩

/-- C5, counterexample to the claim as stated: `valveV5` is closed and
its clamped point-to-segment distance (`distanceToSegment`) to `pipe1`'s
only segment is below the 3 m block distance, yet — because its
projection parameter is negative and `findBlockingValve` skips rather
than clamps — it blocks nothing, and the traversal classifies the
segment flowing, not blocked. -/
theorem c5_counterexample :
    valveV5.isOpen = false ∧
      distanceToSegment linDist ⟨valveV5.latitude, valveV5.longitude⟩ ⟨0, 0⟩ ⟨0, 1/1000⟩ < 3 ∧
      findBlockingValve linDist ⟨0, 0⟩ ⟨0, 1/1000⟩ [valveV5] 3 = none ∧
      (calculateFlowPaths linDist [tankT] [valveV5] [pipe1]).map
        (fun fd => (fd.segments.map (fun s => s.pipelineId), fd.blockedSegments)) =
        Except.ok (["p1"], []) := by
  refine ⟨rfl, ?_, ?_, ?_⟩
  · norm_num [distanceToSegment, valveV5, linDist, abs_of_nonneg, abs_of_nonpos]
  · norm_num [findBlockingValve, valveV5]
  · norm_num +decide [calculateFlowPaths, buildPipelineGraph, addWaypoints, getOrCreateNode,
      findNearbyNode, alistGet, alistSet, alistUpdate, bfsLoop, processEdges, seedQueue,
      nodePos, findBlockingValve, totalSegmentsCount, Except.map, linDist, fixed6, getNodeKey,
      tankT, valveV5, pipe1, abs_of_nonneg, abs_of_nonpos]

/-- C4: the claim says a pipeline with unparsable waypoint data never
makes the computation throw; `buildPipelineGraph` indeed degrades
gracefully (the bad pipeline contributes nothing to the graph), but the
`totalSegments` loop of `calculateFlowPaths` re-parses the waypoints
without a try/catch, so with at least one active tank the whole
computation aborts with the parse exception. -/
theorem c4_unparsable_pipeline_throws :
    buildPipelineGraph linDist [badPipe] 50 = ⟨[], []⟩ ∧
      calculateFlowPaths linDist [tankT] [] [badPipe] =
        Except.error "SyntaxError: JSON.parse" := by
  constructor
  · rfl
  · norm_num [calculateFlowPaths, buildPipelineGraph, badPipe, tankT, seedQueue,
      bfsLoop, totalSegmentsCount, Except.map]

/-- The blocking test skips zero-length segments: on a degenerate segment
whose endpoints coincide, `lenSq = 0` holds for every valve, so
`findBlockingValve` returns `none` whatever the closed-valve list. -/
theorem findBlockingValve_self_eq_none (hav : Pos → Pos → ℚ) (p : Pos)
    (closedValves : List Valve) (maxDistance : ℚ) :
    findBlockingValve hav p p closedValves maxDistance = none := by
  induction closedValves with
  | nil => rfl
  | cons valve rest ih =>
    rw [findBlockingValve]
    dsimp only
    rw [if_pos (by ring)]
    exact ih

/-- A segment reported as blocked has distinct endpoints. -/
theorem findBlockingValve_some_ne {hav : Pos → Pos → ℚ} {s e : Pos}
    {closedValves : List Valve} {maxDistance : ℚ} {v : Valve}
    (h : findBlockingValve hav s e closedValves maxDistance = some v) : s ≠ e := by
  intro hse
  rw [hse, findBlockingValve_self_eq_none] at h
  cases h

/-! ### Graph well-formedness invariants

`buildPipelineGraph` only ever inserts a node under the key minted from
its own position (`KeyInv`), and only ever stores adjacency records whose
endpoints are keys of the map (`EdgeEndpointsInv`).  These two facts make
the key-to-position assignment injective, which is what turns the BFS's
key-level dedup into position-level uniqueness of the output. -/

/-- Every node-map entry is keyed by the rounded coordinates of its own
position. -/
def KeyInv (nodes : NodeMap) : Prop :=
  ∀ p ∈ nodes, p.1 = getNodeKey p.2.position.lat p.2.position.lng

/-- Every stored adjacency record references keys present in the map. -/
def EdgeEndpointsInv (nodes : NodeMap) : Prop :=
  ∀ p ∈ nodes, ∀ e ∈ p.2.edges,
    e.fromKey ∈ nodes.map Prod.fst ∧ e.toKey ∈ nodes.map Prod.fst

theorem alistGet_isSome_of_mem_keys {κ ν : Type} [DecidableEq κ]
    {m : List (κ × ν)} {k : κ} (h : k ∈ m.map Prod.fst) : (alistGet m k).isSome := by
  induction m with
  | nil => simp at h
  | cons e rest ih =>
    rw [alistGet]
    by_cases hk : e.1 = k
    · rw [if_pos hk]
      rfl
    · rw [if_neg hk]
      apply ih
      simp only [List.map_cons, List.mem_cons] at h
      rcases h with h | h
      · exact absurd h.symm hk
      · exact h

theorem nodePos_inj {nodes : NodeMap} (hKI : KeyInv nodes) {a b : NodeKey}
    (ha : a ∈ nodes.map Prod.fst) (hb : b ∈ nodes.map Prod.fst)
    (h : nodePos nodes a = nodePos nodes b) : a = b := by
  obtain ⟨va, hva⟩ := Option.isSome_iff_exists.mp (alistGet_isSome_of_mem_keys ha)
  obtain ⟨vb, hvb⟩ := Option.isSome_iff_exists.mp (alistGet_isSome_of_mem_keys hb)
  have hpa : nodePos nodes a = va.position := by rw [nodePos, hva]
  have hpb : nodePos nodes b = vb.position := by rw [nodePos, hvb]
  have hka : a = getNodeKey va.position.lat va.position.lng :=
    hKI (a, va) (alistGet_some_mem_pair hva)
  have hkb : b = getNodeKey vb.position.lat vb.position.lng :=
    hKI (b, vb) (alistGet_some_mem_pair hvb)
  have hpp : va.position = vb.position := by rw [← hpa, ← hpb, h]
  rw [hka, hkb, hpp]

theorem findNearbyNode_mem {hav : Pos → Pos → ℚ} {cd : ℚ} :
    ∀ {m : NodeMap} {p : Pos} {k : NodeKey},
      findNearbyNode hav cd m p = some k → k ∈ m.map Prod.fst := by
  intro m
  induction m with
  | nil =>
    intro p k h
    rw [findNearbyNode] at h
    exact Option.noConfusion h
  | cons e rest ih =>
    intro p k h
    rw [findNearbyNode] at h
    by_cases hc : hav p e.2.position < cd
    · rw [if_pos hc] at h
      injection h with h
      simp only [List.map_cons]
      rw [← h]
      exact List.mem_cons_self _ _
    · rw [if_neg hc] at h
      exact List.mem_cons_of_mem _ (ih h)

theorem getOrCreateNode_spec (hav : Pos → Pos → ℚ) (cd : ℚ) (nodes : NodeMap) (p : Pos)
    (hKI : KeyInv nodes) (hEI : EdgeEndpointsInv nodes) :
    KeyInv (getOrCreateNode hav cd nodes p).1 ∧
      EdgeEndpointsInv (getOrCreateNode hav cd nodes p).1 ∧
      (getOrCreateNode hav cd nodes p).2 ∈ (getOrCreateNode hav cd nodes p).1.map Prod.fst ∧
      (∀ k ∈ nodes.map Prod.fst, k ∈ (getOrCreateNode hav cd nodes p).1.map Prod.fst) := by
  unfold getOrCreateNode
  cases hf : findNearbyNode hav cd nodes p with
  | some k => exact ⟨hKI, hEI, findNearbyNode_mem hf, fun k' h => h⟩
  | none =>
    dsimp only
    refine ⟨?_, ?_, alistSet_key_mem _ _ _, fun k' h => alistSet_keys_mem _ _ _ h⟩
    · intro q hq
      rcases alistSet_mem_cases hq with hq' | hq'
      · rw [hq']
      · exact hKI q hq'
    · intro q hq e he
      rcases alistSet_mem_cases hq with hq' | hq'
      · rw [hq'] at he
        simp at he
      · have h2 := hEI q hq' e he
        exact ⟨alistSet_keys_mem _ _ _ h2.1, alistSet_keys_mem _ _ _ h2.2⟩

theorem keyInv_update_push (nodes : NodeMap) (k : NodeKey) (e0 : Edge)
    (hKI : KeyInv nodes) :
    KeyInv (alistUpdate nodes k (fun nd => { nd with edges := nd.edges ++ [e0] })) := by
  intro q hq
  rcases alistUpdate_mem_cases hq with hq' | ⟨v, hv, hq'⟩
  · exact hKI q hq'
  · rw [hq']
    exact hKI (k, v) hv

theorem edgeInv_update_push (nodes : NodeMap) (k : NodeKey) (e0 : Edge)
    (hEI : EdgeEndpointsInv nodes)
    (hfrom : e0.fromKey ∈ nodes.map Prod.fst) (hto : e0.toKey ∈ nodes.map Prod.fst) :
    EdgeEndpointsInv (alistUpdate nodes k (fun nd => { nd with edges := nd.edges ++ [e0] })) := by
  intro q hq e he
  rw [alistUpdate_keys]
  rcases alistUpdate_mem_cases hq with hq' | ⟨v, hv, hq'⟩
  · exact hEI q hq' e he
  · rw [hq'] at he
    rcases List.mem_append.mp he with he' | he'
    · exact hEI (k, v) hv e he'
    · rw [List.mem_singleton] at he'
      rw [he']
      exact ⟨hfrom, hto⟩

theorem addWaypoints_inv (hav : Pos → Pos → ℚ) (cd : ℚ) (pid : String) :
    ∀ (g : Graph) (ws : List (Option Pos)), KeyInv g.nodes → EdgeEndpointsInv g.nodes →
      KeyInv (addWaypoints hav cd pid g ws).nodes ∧
        EdgeEndpointsInv (addWaypoints hav cd pid g ws).nodes := by
  intro g ws
  induction g, ws using addWaypoints.induct hav cd pid with
  | case1 g => exact fun h1 h2 => ⟨h1, h2⟩
  | case2 g rest ih =>
    intro h1 h2
    rw [addWaypoints]
    exact ih h1 h2
  | case3 g p =>
    intro h1 h2
    rw [addWaypoints]
    have hs := getOrCreateNode_spec hav cd g.nodes p h1 h2
    exact ⟨hs.1, hs.2.1⟩
  | case4 g p r1 g1 tail ih =>
    intro h1 h2
    rw [addWaypoints]
    have hs := getOrCreateNode_spec hav cd g.nodes p h1 h2
    exact ih hs.1 hs.2.1
  | case5 g p r1 g1 np tail r2 e re nodes3 nodes4 ih =>
    intro h1 h2
    rw [addWaypoints]
    have hs1 := getOrCreateNode_spec hav cd g.nodes p h1 h2
    have hs2 := getOrCreateNode_spec hav cd (getOrCreateNode hav cd g.nodes p).1 np hs1.1 hs1.2.1
    have hk1 : (getOrCreateNode hav cd g.nodes p).2 ∈
        (getOrCreateNode hav cd (getOrCreateNode hav cd g.nodes p).1 np).1.map Prod.fst :=
      hs2.2.2.2 _ hs1.2.2.1
    have hk2 := hs2.2.2.1
    have h3k := keyInv_update_push _ (getOrCreateNode hav cd g.nodes p).2
      ⟨(getOrCreateNode hav cd g.nodes p).2,
        (getOrCreateNode hav cd (getOrCreateNode hav cd g.nodes p).1 np).2, pid⟩ hs2.1
    have h3e := edgeInv_update_push _ (getOrCreateNode hav cd g.nodes p).2
      ⟨(getOrCreateNode hav cd g.nodes p).2,
        (getOrCreateNode hav cd (getOrCreateNode hav cd g.nodes p).1 np).2, pid⟩
      hs2.2.1 hk1 hk2
    have hk1' : (getOrCreateNode hav cd g.nodes p).2 ∈
        (alistUpdate (getOrCreateNode hav cd (getOrCreateNode hav cd g.nodes p).1 np).1
          (getOrCreateNode hav cd g.nodes p).2
          (fun nd => { nd with edges := nd.edges ++
            [⟨(getOrCreateNode hav cd g.nodes p).2,
              (getOrCreateNode hav cd (getOrCreateNode hav cd g.nodes p).1 np).2, pid⟩] })).map
          Prod.fst := by
      rw [alistUpdate_keys]
      exact hk1
    have hk2' : (getOrCreateNode hav cd (getOrCreateNode hav cd g.nodes p).1 np).2 ∈
        (alistUpdate (getOrCreateNode hav cd (getOrCreateNode hav cd g.nodes p).1 np).1
          (getOrCreateNode hav cd g.nodes p).2
          (fun nd => { nd with edges := nd.edges ++
            [⟨(getOrCreateNode hav cd g.nodes p).2,
              (getOrCreateNode hav cd (getOrCreateNode hav cd g.nodes p).1 np).2, pid⟩] })).map
          Prod.fst := by
      rw [alistUpdate_keys]
      exact hk2
    have h4k := keyInv_update_push _
      (getOrCreateNode hav cd (getOrCreateNode hav cd g.nodes p).1 np).2
      ⟨(getOrCreateNode hav cd (getOrCreateNode hav cd g.nodes p).1 np).2,
        (getOrCreateNode hav cd g.nodes p).2, pid⟩ h3k
    have h4e := edgeInv_update_push _
      (getOrCreateNode hav cd (getOrCreateNode hav cd g.nodes p).1 np).2
      ⟨(getOrCreateNode hav cd (getOrCreateNode hav cd g.nodes p).1 np).2,
        (getOrCreateNode hav cd g.nodes p).2, pid⟩ h3e hk2' hk1'
    exact ih h4k h4e

theorem buildPipelineGraph_inv (hav : Pos → Pos → ℚ) (pipelines : List Pipeline) (cd : ℚ) :
    KeyInv (buildPipelineGraph hav pipelines cd).nodes ∧
      EdgeEndpointsInv (buildPipelineGraph hav pipelines cd).nodes := by
  unfold buildPipelineGraph
  have hgen : ∀ (pls : List Pipeline) (g : Graph),
      KeyInv g.nodes → EdgeEndpointsInv g.nodes →
      KeyInv ((pls.foldl (fun g pipeline =>
        match pipeline.nodes with
        | none => g
        | some [] => g
        | some ws => addWaypoints hav cd pipeline.id g ws) g)).nodes ∧
      EdgeEndpointsInv ((pls.foldl (fun g pipeline =>
        match pipeline.nodes with
        | none => g
        | some [] => g
        | some ws => addWaypoints hav cd pipeline.id g ws) g)).nodes := by
    intro pls
    induction pls with
    | nil => exact fun g h1 h2 => ⟨h1, h2⟩
    | cons p rest ih =>
      intro g h1 h2
      rw [List.foldl_cons]
      cases hn : p.nodes with
      | none =>
        simp only [hn]
        exact ih g h1 h2
      | some ws =>
        cases ws with
        | nil =>
          simp only [hn]
          exact ih g h1 h2
        | cons w tail =>
          simp only [hn]
          have ha := addWaypoints_inv hav cd p.id g (w :: tail) h1 h2
          exact ih _ ha.1 ha.2
  exact hgen pipelines ⟨[], []⟩ (fun q hq => absurd hq (List.not_mem_nil q))
    (fun q hq => absurd hq (List.not_mem_nil q))

/-! ### Traversal output invariants -/

/-- The unordered endpoint pair of a flowing segment. -/
def segPair (s : Segment) : Sym2 Pos := Sym2.mk (s.startPos, s.endPos)

/-- The unordered endpoint pair of a blocked segment. -/
def blkPair (s : BlockedSegment) : Sym2 Pos := Sym2.mk (s.startPos, s.endPos)

/-- Invariant of the BFS state relative to the fixed node map: every
blocked segment has distinct endpoints, every classified output is
registered in its dedup set under both directed keys with endpoints that
are positions of map keys, and the combined unordered endpoint pairs are
pairwise distinct. -/
structure FlowInv (nodes : NodeMap) (st : FlowState) : Prop where
  blk_ne : ∀ s ∈ st.blockedSegments, s.startPos ≠ s.endPos
  nodup : (st.segments.map segPair ++ st.blockedSegments.map blkPair).Nodup
  seg_reg : ∀ s ∈ st.segments, ∃ a b, a ∈ nodes.map Prod.fst ∧ b ∈ nodes.map Prod.fst ∧
    (a, b) ∈ st.visitedEdges ∧ (b, a) ∈ st.visitedEdges ∧
    s.startPos = nodePos nodes a ∧ s.endPos = nodePos nodes b
  blk_reg : ∀ s ∈ st.blockedSegments, ∃ a b, a ∈ nodes.map Prod.fst ∧ b ∈ nodes.map Prod.fst ∧
    (a, b) ∈ st.blockedEdges ∧ (b, a) ∈ st.blockedEdges ∧
    s.startPos = nodePos nodes a ∧ s.endPos = nodePos nodes b

theorem nodup_append_singleton {α : Type} {l : List α} {x : α} :
    (l ++ [x]).Nodup ↔ l.Nodup ∧ x ∉ l := by
  simp [List.nodup_append]

/-- An edge passing the two dedup guards has an unordered endpoint-pair
distinct from every pair already classified. -/
theorem fresh_pair {nodes : NodeMap} {st : FlowState} (hKI : KeyInv nodes)
    (hInv : FlowInv nodes st) {f t : NodeKey}
    (hef : f ∈ nodes.map Prod.fst) (het : t ∈ nodes.map Prod.fst)
    (h1 : ¬((f, t) ∈ st.visitedEdges ∨ (t, f) ∈ st.visitedEdges))
    (h2 : ¬((f, t) ∈ st.blockedEdges ∨ (t, f) ∈ st.blockedEdges)) :
    Sym2.mk (nodePos nodes f, nodePos nodes t) ∉ st.segments.map segPair ∧
      Sym2.mk (nodePos nodes f, nodePos nodes t) ∉ st.blockedSegments.map blkPair := by
  constructor
  · intro hmem
    obtain ⟨s, hs, hps⟩ := List.mem_map.mp hmem
    obtain ⟨a, b, ha, hb, hv1, hv2, h6, h7⟩ := hInv.seg_reg s hs
    rw [segPair, h6, h7] at hps
    rcases Sym2.eq_iff.mp hps with ⟨hA, hB⟩ | ⟨hA, hB⟩
    · have haf : a = f := nodePos_inj hKI ha hef hA
      have hbt : b = t := nodePos_inj hKI hb het hB
      exact h1 (Or.inl (haf ▸ hbt ▸ hv1))
    · have hat : a = t := nodePos_inj hKI ha het hA
      have hbf : b = f := nodePos_inj hKI hb hef hB
      exact h1 (Or.inr (hat ▸ hbf ▸ hv1))
  · intro hmem
    obtain ⟨s, hs, hps⟩ := List.mem_map.mp hmem
    obtain ⟨a, b, ha, hb, hv1, hv2, h6, h7⟩ := hInv.blk_reg s hs
    rw [blkPair, h6, h7] at hps
    rcases Sym2.eq_iff.mp hps with ⟨hA, hB⟩ | ⟨hA, hB⟩
    · have haf : a = f := nodePos_inj hKI ha hef hA
      have hbt : b = t := nodePos_inj hKI hb het hB
      exact h2 (Or.inl (haf ▸ hbt ▸ hv1))
    · have hat : a = t := nodePos_inj hKI ha het hA
      have hbf : b = f := nodePos_inj hKI hb hef hB
      exact h2 (Or.inr (hat ▸ hbf ▸ hv1))

theorem processEdges_inv (hav : Pos → Pos → ℚ) (blockDistance : ℚ) (nodes : NodeMap)
    (closedValves : List Valve) (srcTank : String) (hKI : KeyInv nodes) :
    ∀ (es : List Edge) (st : FlowState) (q : List (NodeKey × String)),
      FlowInv nodes st →
      (∀ e ∈ es, e.fromKey ∈ nodes.map Prod.fst ∧ e.toKey ∈ nodes.map Prod.fst) →
      FlowInv nodes (processEdges hav blockDistance nodes closedValves srcTank es st q).1 := by
  intro es
  induction es with
  | nil =>
    intro st q hInv _
    exact hInv
  | cons e rest ih =>
    intro st q hInv hes
    have hes' : ∀ e' ∈ rest, e'.fromKey ∈ nodes.map Prod.fst ∧ e'.toKey ∈ nodes.map Prod.fst :=
      fun e' h => hes e' (List.mem_cons_of_mem _ h)
    have hef : e.fromKey ∈ nodes.map Prod.fst := (hes e (List.mem_cons_self _ _)).1
    have het : e.toKey ∈ nodes.map Prod.fst := (hes e (List.mem_cons_self _ _)).2
    rw [processEdges]
    by_cases h1 : (e.fromKey, e.toKey) ∈ st.visitedEdges ∨ (e.toKey, e.fromKey) ∈ st.visitedEdges
    · rw [if_pos h1]
      exact ih st q hInv hes'
    · rw [if_neg h1]
      by_cases h2 : (e.fromKey, e.toKey) ∈ st.blockedEdges ∨ (e.toKey, e.fromKey) ∈ st.blockedEdges
      · rw [if_pos h2]
        exact ih st q hInv hes'
      · rw [if_neg h2]
        dsimp only
        have hfresh := fresh_pair hKI hInv hef het h1 h2
        cases h3 : findBlockingValve hav (nodePos nodes e.fromKey) (nodePos nodes e.toKey)
            closedValves blockDistance with
        | some bv =>
          apply ih _ _ _ hes'
          constructor
          · intro s hs
            rcases List.mem_append.mp hs with hs' | hs'
            · exact hInv.blk_ne s hs'
            · rw [List.mem_singleton] at hs'
              rw [hs']
              exact findBlockingValve_some_ne h3
          · have hmap : ((st.blockedSegments ++
                [(⟨e.pipelineId, nodePos nodes e.fromKey, nodePos nodes e.toKey,
                  bv.name⟩ : BlockedSegment)]).map blkPair) =
                st.blockedSegments.map blkPair ++
                  [Sym2.mk (nodePos nodes e.fromKey, nodePos nodes e.toKey)] := by
              rw [List.map_append]
              rfl
            show (st.segments.map segPair ++ _).Nodup
            rw [hmap, ← List.append_assoc, nodup_append_singleton]
            refine ⟨hInv.nodup, ?_⟩
            intro hmem
            rcases List.mem_append.mp hmem with hm | hm
            · exact hfresh.1 hm
            · exact hfresh.2 hm
          · intro s hs
            obtain ⟨a, b, ha, hb, h4, h5, h6, h7⟩ := hInv.seg_reg s hs
            exact ⟨a, b, ha, hb, h4, h5, h6, h7⟩
          · intro s hs
            rcases List.mem_append.mp hs with hs' | hs'
            · obtain ⟨a, b, ha, hb, h4, h5, h6, h7⟩ := hInv.blk_reg s hs'
              exact ⟨a, b, ha, hb, List.mem_append_left _ h4, List.mem_append_left _ h5, h6, h7⟩
            · rw [List.mem_singleton] at hs'
              rw [hs']
              refine ⟨e.fromKey, e.toKey, hef, het, ?_, ?_, rfl, rfl⟩
              · exact List.mem_append_right _ (by simp)
              · exact List.mem_append_right _ (by simp)
        | none =>
          apply ih _ _ _ hes'
          constructor
          · exact hInv.blk_ne
          · have hmap : ((st.segments ++
                [(⟨e.pipelineId, nodePos nodes e.fromKey, nodePos nodes e.toKey, srcTank,
                  true, false⟩ : Segment)]).map segPair) =
                st.segments.map segPair ++
                  [Sym2.mk (nodePos nodes e.fromKey, nodePos nodes e.toKey)] := by
              rw [List.map_append]
              rfl
            show (_ ++ st.blockedSegments.map blkPair).Nodup
            rw [hmap, List.append_assoc, List.singleton_append, List.nodup_middle,
              List.nodup_cons]
            refine ⟨?_, hInv.nodup⟩
            intro hmem
            rcases List.mem_append.mp hmem with hm | hm
            · exact hfresh.1 hm
            · exact hfresh.2 hm
          · intro s hs
            rcases List.mem_append.mp hs with hs' | hs'
            · obtain ⟨a, b, ha, hb, h4, h5, h6, h7⟩ := hInv.seg_reg s hs'
              exact ⟨a, b, ha, hb, List.mem_append_left _ h4, List.mem_append_left _ h5, h6, h7⟩
            · rw [List.mem_singleton] at hs'
              rw [hs']
              refine ⟨e.fromKey, e.toKey, hef, het, ?_, ?_, rfl, rfl⟩
              · exact List.mem_append_right _ (by simp)
              · exact List.mem_append_right _ (by simp)
          · intro s hs
            obtain ⟨a, b, ha, hb, h4, h5, h6, h7⟩ := hInv.blk_reg s hs
            exact ⟨a, b, ha, hb, h4, h5, h6, h7⟩

theorem bfsLoop_inv (hav : Pos → Pos → ℚ) (blockDistance : ℚ) (nodes : NodeMap)
    (closedValves : List Valve) (hKI : KeyInv nodes) (hEI : EdgeEndpointsInv nodes) :
    ∀ (q : List (NodeKey × String)) (st : FlowState), FlowInv nodes st →
      FlowInv nodes (bfsLoop hav blockDistance nodes closedValves q st) := by
  intro q st
  induction q, st using bfsLoop.induct hav blockDistance nodes closedValves with
  | case1 st =>
    intro hInv
    rw [bfsLoop]
    exact hInv
  | case2 k src rest st hk ih =>
    intro hInv
    rw [bfsLoop, if_pos hk]
    exact ih hInv
  | case3 k src rest st hk st1 hsome nd r ih =>
    intro hInv
    rw [bfsLoop, if_neg hk]
    rw [dif_pos hsome]
    apply ih
    have hnd : alistGet nodes k = some ((alistGet nodes k).get hsome) :=
      (Option.some_get hsome).symm
    have hpair := alistGet_some_mem_pair hnd
    have hes := hEI _ hpair
    exact processEdges_inv hav blockDistance nodes closedValves src hKI _ _ []
      ⟨hInv.blk_ne, hInv.nodup, hInv.seg_reg, hInv.blk_reg⟩ hes
  | case4 k src rest st hk st1 hnone ih =>
    intro hInv
    rw [bfsLoop, if_neg hk, dif_neg hnone]
    exact ih ⟨hInv.blk_ne, hInv.nodup, hInv.seg_reg, hInv.blk_reg⟩

/-- Every successful `calculateFlowPaths` result is the output part of a
BFS state satisfying `FlowInv` for the graph it was computed over. -/
theorem calculateFlowPaths_state (hav : Pos → Pos → ℚ) (tanks : List Tank)
    (valves : List Valve) (pipelines : List Pipeline) (fd : FlowData)
    (h : calculateFlowPaths hav tanks valves pipelines = Except.ok fd) :
    ∃ st : FlowState, FlowInv (buildPipelineGraph hav pipelines 50).nodes st ∧
      fd.segments = st.segments ∧ fd.blockedSegments = st.blockedSegments := by
  unfold calculateFlowPaths at h
  by_cases hemp : (tanks.filter (·.isActive)).isEmpty = true
  · rw [if_pos hemp] at h
    have hfd : fd = ⟨[], [], 0⟩ := by
      cases h
      rfl
    refine ⟨⟨[], [], [], [], []⟩, ?_, by rw [hfd], by rw [hfd]⟩
    exact ⟨fun s hs => absurd hs (List.not_mem_nil s), by simp,
      fun s hs => absurd hs (List.not_mem_nil s), fun s hs => absurd hs (List.not_mem_nil s)⟩
  · rw [if_neg hemp] at h
    dsimp only at h
    have hGI := buildPipelineGraph_inv hav pipelines 50
    have hFold : ∀ (tl : List Tank) (st : FlowState),
        FlowInv (buildPipelineGraph hav pipelines 50).nodes st →
        FlowInv (buildPipelineGraph hav pipelines 50).nodes
          (tl.foldl (fun st tank =>
            bfsLoop hav 3 (buildPipelineGraph hav pipelines 50).nodes
              (valves.filter (fun v => !v.isOpen))
              (seedQueue hav 50 ⟨tank.latitude, tank.longitude⟩ tank.name
                (buildPipelineGraph hav pipelines 50).nodes) st) st) := by
      intro tl
      induction tl with
      | nil => exact fun st hst => hst
      | cons tk tl ih =>
        intro st hst
        rw [List.foldl_cons]
        exact ih _ (bfsLoop_inv hav 3 _ _ hGI.1 hGI.2 _ _ hst)
    cases hts : totalSegmentsCount pipelines 0 with
    | error msg =>
      rw [hts] at h
      cases h
    | ok ts =>
      rw [hts] at h
      have hfd : fd = ⟨((tanks.filter (·.isActive)).foldl (fun st tank =>
          bfsLoop hav 3 (buildPipelineGraph hav pipelines 50).nodes
            (valves.filter (fun v => !v.isOpen))
            (seedQueue hav 50 ⟨tank.latitude, tank.longitude⟩ tank.name
              (buildPipelineGraph hav pipelines 50).nodes) st)
          ⟨[], [], [], [], []⟩).segments,
          ((tanks.filter (·.isActive)).foldl (fun st tank =>
          bfsLoop hav 3 (buildPipelineGraph hav pipelines 50).nodes
            (valves.filter (fun v => !v.isOpen))
            (seedQueue hav 50 ⟨tank.latitude, tank.longitude⟩ tank.name
              (buildPipelineGraph hav pipelines 50).nodes) st)
          ⟨[], [], [], [], []⟩).blockedSegments, ts⟩ := by
        cases h
        rfl
      refine ⟨_, hFold (tanks.filter (·.isActive)) ⟨[], [], [], [], []⟩
        ⟨fun s hs => absurd hs (List.not_mem_nil s), by simp,
          fun s hs => absurd hs (List.not_mem_nil s),
          fun s hs => absurd hs (List.not_mem_nil s)⟩, ?_, ?_⟩
      · rw [hfd]
      · rw [hfd]

/-- C10, counterexample to the claim as stated: in `pipe10` the second
and third waypoints lie within the 50 m connect distance of each other,
yet they do not snap to the same graph node — the third waypoint's
nearest-node search finds the *first* node (22 m away) before the second
one, so the built edge joins two distinct node keys instead of forming a
self-loop. -/
theorem c10_counterexample :
    linDist ⟨0, 3/5000⟩ ⟨0, 1/5000⟩ < 50 ∧
      (buildPipelineGraph linDist [pipe10] 50).edges.map (fun e => (e.fromKey, e.toKey)) =
        [(getNodeKey 0 0, getNodeKey 0 (3/5000)), (getNodeKey 0 (3/5000), getNodeKey 0 0)] ∧
      getNodeKey 0 (3/5000) ≠ getNodeKey 0 0 := by
  refine ⟨?_, ?_, ?_⟩
  · norm_num [linDist, abs_of_nonneg, abs_of_nonpos]
  · norm_num [buildPipelineGraph, addWaypoints, getOrCreateNode, findNearbyNode, alistGet,
      alistSet, alistUpdate, pipe10, linDist, fixed6, getNodeKey, abs_of_nonneg, abs_of_nonpos]
  · norm_num [getNodeKey, fixed6, abs_of_nonneg, Prod.ext_iff]

/-- Concrete run shared by the traversal witnesses: the closed valve
`valveVB` sits at the midpoint of `pipe1`'s only segment, so the
traversal classifies that segment blocked. -/
theorem calculateFlowPaths_blocked_run :
    calculateFlowPaths linDist [tankT] [valveVB] [pipe1] =
      Except.ok ⟨[], [⟨"p1", ⟨0, 0⟩, ⟨0, 1/1000⟩, "VB"⟩], 1⟩ := by
  norm_num +decide [calculateFlowPaths, buildPipelineGraph, addWaypoints, getOrCreateNode,
    findNearbyNode, alistGet, alistSet, alistUpdate, bfsLoop, processEdges, seedQueue,
    nodePos, findBlockingValve, totalSegmentsCount, Except.map, linDist, fixed6, getNodeKey,
    tankT, valveVB, pipe1, abs_of_nonneg, abs_of_nonpos]

/-- C7: for every input on which the flow calculation succeeds, each
physical sub-segment is classified at most once — the unordered endpoint
pairs of the flowing and blocked outputs, taken together, are pairwise
distinct, so no segment is classified in both directions and none appears
in both lists. -/
theorem c7_unique_classification (hav : Pos → Pos → ℚ) (tanks : List Tank)
    (valves : List Valve) (pipelines : List Pipeline) (fd : FlowData)
    (h : calculateFlowPaths hav tanks valves pipelines = Except.ok fd) :
    (fd.segments.map segPair ++ fd.blockedSegments.map blkPair).Nodup := by
  obtain ⟨st, hInv, hs, hb⟩ := calculateFlowPaths_state hav tanks valves pipelines fd h
  rw [hs, hb]
  exact hInv.nodup

/-- C7, witness: the unique-classification theorem applied to the
concrete blocked run. -/
theorem c7_unique_classification_witness :
    (((⟨[], [⟨"p1", ⟨0, 0⟩, ⟨0, 1/1000⟩, "VB"⟩], 1⟩ : FlowData).segments.map segPair) ++
      ((⟨[], [⟨"p1", ⟨0, 0⟩, ⟨0, 1/1000⟩, "VB"⟩], 1⟩ : FlowData).blockedSegments.map
        blkPair)).Nodup :=
  c7_unique_classification linDist [tankT] [valveVB] [pipe1] _ calculateFlowPaths_blocked_run

/-- C10, amended: a self-loop edge (coincident endpoints) is skipped by
the blocking test — `findBlockingValve` returns `none` on any zero-length
segment whatever the closed valves — and consequently no segment with
coincident endpoints ever appears in the blocked output; but the claim's
premise is false: two consecutive waypoints within the connect distance
of each other do NOT always snap to the same graph node (see the
counterexample), they do so only when the second waypoint's first-found
nearby node is the first waypoint's node. -/
theorem c10_zero_length_segment_never_blocked (hav : Pos → Pos → ℚ) (p : Pos)
    (closedValves : List Valve) (maxDistance : ℚ) (tanks : List Tank) (valves : List Valve)
    (pipelines : List Pipeline) (fd : FlowData) :
    findBlockingValve hav p p closedValves maxDistance = none ∧
      (calculateFlowPaths hav tanks valves pipelines = Except.ok fd →
        ∀ s ∈ fd.blockedSegments, s.startPos ≠ s.endPos) := by
  refine ⟨findBlockingValve_self_eq_none hav p closedValves maxDistance, ?_⟩
  intro h s hs
  obtain ⟨st, hInv, _, hb⟩ := calculateFlowPaths_state hav tanks valves pipelines fd h
  rw [hb] at hs
  exact hInv.blk_ne s hs

/-- C10, witness: the amended theorem applied to the concrete blocked
run — the blocking valve is skipped on a zero-length segment, and the one
blocked segment of the run has distinct endpoints. -/
theorem c10_zero_length_segment_never_blocked_witness :
    findBlockingValve linDist ⟨0, 0⟩ ⟨0, 0⟩ [valveVB] 3 = none ∧
      (⟨"p1", ⟨0, 0⟩, ⟨0, 1/1000⟩, "VB"⟩ : BlockedSegment).startPos ≠
        (⟨"p1", ⟨0, 0⟩, ⟨0, 1/1000⟩, "VB"⟩ : BlockedSegment).endPos := by
  have hc := c10_zero_length_segment_never_blocked linDist ⟨0, 0⟩ [valveVB] 3
    [tankT] [valveVB] [pipe1] ⟨[], [⟨"p1", ⟨0, 0⟩, ⟨0, 1/1000⟩, "VB"⟩], 1⟩
  exact ⟨hc.1, hc.2 calculateFlowPaths_blocked_run _ (List.mem_singleton.mpr rfl)⟩

/-! ### Valve-tree helper lemmas for the supply claims -/

theorem alistGet_eq_none_of_not_mem {κ ν : Type} [DecidableEq κ]
    {m : List (κ × ν)} {k : κ} (h : ¬ k ∈ m.map Prod.fst) : alistGet m k = none := by
  cases hg : alistGet m k with
  | none => rfl
  | some v => exact absurd (alistGet_some_mem hg) h

theorem alistSet_keys_of_mem {κ ν : Type} [DecidableEq κ]
    {m : List (κ × ν)} {k : κ} (v : ν) (h : k ∈ m.map Prod.fst) :
    (alistSet m k v).map Prod.fst = m.map Prod.fst := by
  induction m with
  | nil => simp at h
  | cons e rest ih =>
    rw [alistSet]
    by_cases hk : e.1 = k
    · rw [if_pos hk]
      simp [List.map_cons, hk]
    · rw [if_neg hk]
      simp only [List.map_cons, List.mem_cons] at h
      simp only [List.map_cons]
      congr 1
      apply ih
      rcases h with h1 | h1
      · exact absurd h1.symm hk
      · exact h1

theorem alistSet_append_of_not_mem {κ ν : Type} [DecidableEq κ]
    {m : List (κ × ν)} {k : κ} (v : ν) (h : ¬ k ∈ m.map Prod.fst) :
    alistSet m k v = m ++ [(k, v)] := by
  induction m with
  | nil => rfl
  | cons e rest ih =>
    simp only [List.map_cons, List.mem_cons, not_or] at h
    rw [alistSet, if_neg (fun he => h.1 he.symm)]
    rw [List.cons_append]
    congr 1
    exact ih h.2

theorem alistGet_mapVal {κ ν ν' : Type} [DecidableEq κ] (g : ν → ν')
    (m : List (κ × ν)) (k : κ) :
    alistGet (m.map (fun e => (e.1, g e.2))) k = (alistGet m k).map g := by
  induction m with
  | nil => rfl
  | cons e rest ih =>
    simp only [List.map_cons]
    rw [alistGet, alistGet]
    by_cases hk : e.1 = k
    · rw [if_pos hk, if_pos hk]
      rfl
    · rw [if_neg hk, if_neg hk]
      exact ih

theorem keys_mapVal {κ ν ν' : Type} (g : ν → ν') (m : List (κ × ν)) :
    (m.map (fun e => (e.1, g e.2))).map Prod.fst = m.map Prod.fst := by
  induction m with
  | nil => rfl
  | cons e rest ih =>
    simp only [List.map_cons]
    congr 1

theorem alistGet_map_set_stable {κ ν π : Type} [DecidableEq κ] (f : ν → π)
    {m : List (κ × ν)} {k : κ} {w v : ν}
    (hw : alistGet m k = some w) (hfv : f v = f w) (k' : κ) :
    (alistGet (alistSet m k v) k').map f = (alistGet m k').map f := by
  by_cases hk : k = k'
  · subst hk
    rw [alistGet_set_self, hw]
    simp [hfv]
  · rw [alistGet_set_ne _ _ _ _ hk]

theorem overwriteChildren_nil (fph : ℚ) (m : ValveTree) :
    overwriteChildren [] fph m = m := rfl

theorem overwriteChildren_cons (c : Valve) (cs : List Valve) (fph : ℚ) (m : ValveTree) :
    overwriteChildren (c :: cs) fph m =
      overwriteChildren cs fph
        (match alistGet m c.valveId with
         | none => m
         | some childNode =>
           alistSet m c.valveId { childNode with totalFlow := c.households * fph }) := by
  rw [overwriteChildren, overwriteChildren, List.foldl_cons]

theorem overwriteChildren_keys :
    ∀ (cs : List Valve) (fph : ℚ) (m : ValveTree),
      (overwriteChildren cs fph m).map Prod.fst = m.map Prod.fst := by
  intro cs
  induction cs with
  | nil => intro fph m; rfl
  | cons c rest ih =>
    intro fph m
    rw [overwriteChildren_cons]
    cases hg : alistGet m c.valveId with
    | none => exact ih fph m
    | some childNode =>
      rw [ih]
      exact alistSet_keys_of_mem _ (alistGet_some_mem hg)

theorem overwriteChildren_proj {π : Type} (f : VTNode → π)
    (hf : ∀ (n : VTNode) (q : ℚ), f { n with totalFlow := q } = f n) :
    ∀ (cs : List Valve) (fph : ℚ) (m : ValveTree) (k' : String),
      (alistGet (overwriteChildren cs fph m) k').map f = (alistGet m k').map f := by
  intro cs
  induction cs with
  | nil => intro fph m k'; rfl
  | cons c rest ih =>
    intro fph m k'
    rw [overwriteChildren_cons]
    cases hg : alistGet m c.valveId with
    | none => exact ih fph m k'
    | some childNode =>
      rw [ih]
      exact alistGet_map_set_stable f hg (hf childNode _) k'

/-- Under distinct keys, the entry values of an association list can be
recovered by looking its own keys up (any default, since no lookup
misses). -/
theorem entriesProj_eq {κ ν π : Type} [DecidableEq κ] (f : ν → π) (d : π) :
    ∀ (m : List (κ × ν)), (m.map Prod.fst).Nodup →
      m.map (fun e => f e.2) =
        (m.map Prod.fst).map (fun k => ((alistGet m k).map f).getD d) := by
  intro m
  induction m with
  | nil => intro _; rfl
  | cons e rest ih =>
    intro hnd
    simp only [List.map_cons] at hnd ⊢
    rw [List.nodup_cons] at hnd
    congr 1
    · rw [alistGet, if_pos rfl]
      rfl
    · rw [ih hnd.2]
      apply List.map_congr_left
      intro k hk
      have hke : ¬ e.1 = k := fun he => hnd.1 (he ▸ hk)
      rw [alistGet, if_neg hke]

theorem distributeStep_keys (vt : ValveTree) (acc : DistAcc) (key : String) :
    (distributeStep vt acc key).1.map Prod.fst = vt.map Prod.fst := by
  rw [distributeStep]
  cases hget : alistGet vt key with
  | none => rfl
  | some node =>
    dsimp only
    by_cases ho : node.valve.isOpen = true
    · rw [if_pos ho]
      by_cases hto : node.directHouseholds +
          (node.children.filter (·.isOpen)).foldl (fun sum c => sum + c.households) 0 > 0
      · rw [if_pos hto]
        dsimp only
        rw [overwriteChildren_keys, alistSet_keys_of_mem _ (alistGet_some_mem hget)]
      · rw [if_neg hto]
    · rw [if_neg ho]

theorem distributeStep_acc_totalH (vt : ValveTree) (acc : DistAcc) (key : String) :
    (distributeStep vt acc key).2.totalHouseholds =
      acc.totalHouseholds + ((alistGet vt key).map (fun n => n.totalHouseholds)).getD 0 := by
  rw [distributeStep]
  cases hget : alistGet vt key with
  | none => simp
  | some node =>
    dsimp only
    by_cases ho : node.valve.isOpen = true
    · rw [if_pos ho]
      by_cases hto : node.directHouseholds +
          (node.children.filter (·.isOpen)).foldl (fun sum c => sum + c.households) 0 > 0
      · rw [if_pos hto]
        rfl
      · rw [if_neg hto]
        rfl
    · rw [if_neg ho]
      rfl

theorem distributeStep_proj_stable {π : Type} (f : VTNode → π)
    (hfF : ∀ (n : VTNode) (q : ℚ), f { n with totalFlow := q } = f n)
    (hfS : ∀ (n : VTNode) (s : ℚ) (d : Option ℚ),
      f { n with servedHouseholds := s, directFlow := d } = f n)
    (vt : ValveTree) (acc : DistAcc) (key : String) (k' : String) :
    (alistGet (distributeStep vt acc key).1 k').map f = (alistGet vt k').map f := by
  rw [distributeStep]
  cases hget : alistGet vt key with
  | none => rfl
  | some node =>
    dsimp only
    by_cases ho : node.valve.isOpen = true
    · rw [if_pos ho]
      by_cases hto : node.directHouseholds +
          (node.children.filter (·.isOpen)).foldl (fun sum c => sum + c.households) 0 > 0
      · rw [if_pos hto]
        dsimp only
        rw [overwriteChildren_proj f hfF]
        exact alistGet_map_set_stable f hget (hfS node _ _) k'
      · rw [if_neg hto]
    · rw [if_neg ho]

theorem distributeStep_proj_other {π : Type} (f : VTNode → π)
    (hfF : ∀ (n : VTNode) (q : ℚ), f { n with totalFlow := q } = f n)
    (vt : ValveTree) (acc : DistAcc) (key : String) (k' : String) (hne : k' ≠ key) :
    (alistGet (distributeStep vt acc key).1 k').map f = (alistGet vt k').map f := by
  rw [distributeStep]
  cases hget : alistGet vt key with
  | none => rfl
  | some node =>
    dsimp only
    by_cases ho : node.valve.isOpen = true
    · rw [if_pos ho]
      by_cases hto : node.directHouseholds +
          (node.children.filter (·.isOpen)).foldl (fun sum c => sum + c.households) 0 > 0
      · rw [if_pos hto]
        dsimp only
        rw [overwriteChildren_proj f hfF]
        rw [alistGet_set_ne _ _ _ _ (fun h => hne h.symm)]
      · rw [if_neg hto]
    · rw [if_neg ho]

theorem distributeFold_keys :
    ∀ (ks : List String) (vt : ValveTree) (acc : DistAcc),
      ((ks.foldl (fun p key => distributeStep p.1 p.2 key) (vt, acc)).1).map Prod.fst =
        vt.map Prod.fst := by
  intro ks
  induction ks with
  | nil => intro vt acc; rfl
  | cons k ks ih =>
    intro vt acc
    rw [List.foldl_cons]
    rw [show (distributeStep (vt, acc).1 (vt, acc).2 k) =
      distributeStep vt acc k from rfl]
    cases hstep : distributeStep vt acc k with
    | mk vt' acc' =>
      rw [ih vt' acc']
      have := distributeStep_keys vt acc k
      rw [hstep] at this
      exact this

theorem distributeFold_proj_stable {π : Type} (f : VTNode → π)
    (hfF : ∀ (n : VTNode) (q : ℚ), f { n with totalFlow := q } = f n)
    (hfS : ∀ (n : VTNode) (s : ℚ) (d : Option ℚ),
      f { n with servedHouseholds := s, directFlow := d } = f n) :
    ∀ (ks : List String) (vt : ValveTree) (acc : DistAcc) (k' : String),
      (alistGet ((ks.foldl (fun p key => distributeStep p.1 p.2 key) (vt, acc)).1) k').map f =
        (alistGet vt k').map f := by
  intro ks
  induction ks with
  | nil => intro vt acc k'; rfl
  | cons k ks ih =>
    intro vt acc k'
    rw [List.foldl_cons]
    cases hstep : distributeStep vt acc k with
    | mk vt' acc' =>
      rw [ih vt' acc' k']
      have := distributeStep_proj_stable f hfF hfS vt acc k k'
      rw [hstep] at this
      exact this

theorem distributeFold_totalH :
    ∀ (ks : List String) (vt : ValveTree) (acc : DistAcc),
      ((ks.foldl (fun p key => distributeStep p.1 p.2 key) (vt, acc)).2).totalHouseholds =
        acc.totalHouseholds +
          (ks.map (fun k => ((alistGet vt k).map (fun n => n.totalHouseholds)).getD 0)).sum := by
  intro ks
  induction ks with
  | nil => intro vt acc; simp
  | cons k ks ih =>
    intro vt acc
    rw [List.foldl_cons]
    cases hstep : distributeStep vt acc k with
    | mk vt' acc' =>
      rw [ih vt' acc']
      have hacc := distributeStep_acc_totalH vt acc k
      rw [hstep] at hacc
      have hkeys : ∀ k' : String,
          ((alistGet vt' k').map (fun n => n.totalHouseholds)).getD 0 =
            ((alistGet vt k').map (fun n => n.totalHouseholds)).getD 0 := by
        intro k'
        have := distributeStep_proj_stable (fun n => n.totalHouseholds)
          (fun n q => rfl) (fun n s d => rfl) vt acc k k'
        rw [hstep] at this
        rw [this]
      have hmap : ks.map (fun k' => ((alistGet vt' k').map (fun n => n.totalHouseholds)).getD 0) =
          ks.map (fun k' => ((alistGet vt k').map (fun n => n.totalHouseholds)).getD 0) :=
        List.map_congr_left (fun k' _ => hkeys k')
      rw [hmap, hacc, List.map_cons, List.sum_cons]
      ring

theorem buildValveTree_eq (subs : List Valve) :
    ∀ (mains : List Valve) (vt : ValveTree),
      (∀ m ∈ mains, ¬ m.valveId ∈ vt.map Prod.fst) →
      ((mains.map (fun v => v.valveId)).Nodup) →
      mains.foldl (fun vt valve => alistSet vt valve.valveId (initTreeNode subs valve)) vt =
        vt ++ mains.map (fun v => (v.valveId, initTreeNode subs v)) := by
  intro mains
  induction mains with
  | nil => intro vt _ _; simp
  | cons m rest ih =>
    intro vt hfresh hnd
    rw [List.foldl_cons,
      alistSet_append_of_not_mem _ (hfresh m (List.mem_cons_self _ _))]
    simp only [List.map_cons, List.nodup_cons] at hnd
    have hfresh' : ∀ m' ∈ rest, ¬ m'.valveId ∈ (vt ++ [(m.valveId, initTreeNode subs m)]).map Prod.fst := by
      intro m' hm'
      rw [List.map_append]
      intro hmem
      rcases List.mem_append.mp hmem with h1 | h1
      · exact hfresh m' (List.mem_cons_of_mem _ hm') h1
      · simp only [List.map_cons, List.map_nil, List.mem_singleton] at h1
        exact hnd.1 (h1 ▸ List.mem_map_of_mem (fun v => v.valveId) hm')
    rw [ih _ hfresh' hnd.2, List.map_cons, List.append_assoc]
    rfl

theorem buildValveTree_of_nodup (mains subs : List Valve)
    (hnd : (mains.map (fun v => v.valveId)).Nodup) :
    buildValveTree mains subs = mains.map (fun v => (v.valveId, initTreeNode subs v)) := by
  unfold buildValveTree
  rw [buildValveTree_eq subs mains [] (by intro m _ h; simp at h) hnd]
  rfl

theorem applyDirectHouseholds_keys :
    ∀ (mains : List Valve) (vt : ValveTree),
      (applyDirectHouseholds mains vt).map Prod.fst = vt.map Prod.fst := by
  intro mains
  induction mains with
  | nil => intro vt; rfl
  | cons m rest ih =>
    intro vt
    rw [applyDirectHouseholds, List.foldl_cons, ← applyDirectHouseholds]
    cases hget : alistGet vt m.valveId with
    | none => exact ih vt
    | some node =>
      dsimp only
      rw [ih]
      exact alistSet_keys_of_mem _ (alistGet_some_mem hget)

theorem applyDirectHouseholds_proj {π : Type} (f : VTNode → π)
    (hfD : ∀ (n : VTNode) (q : ℚ), f { n with directHouseholds := q } = f n) :
    ∀ (mains : List Valve) (vt : ValveTree) (k' : String),
      (alistGet (applyDirectHouseholds mains vt) k').map f = (alistGet vt k').map f := by
  intro mains
  induction mains with
  | nil => intro vt k'; rfl
  | cons m rest ih =>
    intro vt k'
    rw [applyDirectHouseholds, List.foldl_cons, ← applyDirectHouseholds]
    cases hget : alistGet vt m.valveId with
    | none => exact ih vt k'
    | some node =>
      dsimp only
      rw [ih]
      exact alistGet_map_set_stable f hget (hfD node _) k'

theorem applyFlowEstimates_keys (hav : Pos → Pos → ℚ) (segments : List Segment)
    (pipelines : List Pipeline) (vt : ValveTree) :
    (applyFlowEstimates hav segments pipelines vt).map Prod.fst = vt.map Prod.fst :=
  keys_mapVal _ vt

theorem applyFlowEstimates_get (hav : Pos → Pos → ℚ) (segments : List Segment)
    (pipelines : List Pipeline) (vt : ValveTree) (k : String) :
    alistGet (applyFlowEstimates hav segments pipelines vt) k =
      (alistGet vt k).map (nodeFlowUpdate hav segments pipelines) :=
  alistGet_mapVal _ vt k

theorem nodeFlowUpdate_totalH (hav : Pos → Pos → ℚ) (segments : List Segment)
    (pipelines : List Pipeline) (n : VTNode) :
    (nodeFlowUpdate hav segments pipelines n).totalHouseholds = n.totalHouseholds := by
  rw [nodeFlowUpdate]
  by_cases ho : n.valve.isOpen = true
  · rw [if_pos ho]
  · rw [if_neg ho]

theorem calculateSupplyOverview_ok {hav : Pos → Pos → ℚ} {tanks : List Tank}
    {valves : List Valve} {pipelines : List Pipeline} {r : SupplyOverview}
    (h : calculateSupplyOverview hav tanks valves pipelines = Except.ok r) :
    ∃ fd, calculateFlowPaths hav tanks valves pipelines = Except.ok fd ∧
      r = supplyFromFlow hav tanks valves pipelines fd := by
  unfold calculateSupplyOverview at h
  cases hf : calculateFlowPaths hav tanks valves pipelines with
  | error e =>
    rw [hf] at h
    cases h
  | ok fd =>
    rw [hf] at h
    cases h
    exact ⟨fd, rfl, rfl⟩

/-- The reported `stats.totalHouseholds` is exactly the sum of the main
valves' households (with distinct main-valve ids, as the database's
primary key guarantees). -/
theorem supplyFromFlow_totalHouseholds (hav : Pos → Pos → ℚ) (tanks : List Tank)
    (valves : List Valve) (pipelines : List Pipeline) (fd : FlowData)
    (hnd : ((mainValvesOf valves).map (fun v => v.valveId)).Nodup) :
    (supplyFromFlow hav tanks valves pipelines fd).stats.totalHouseholds =
      ((mainValvesOf valves).map (fun v => v.households)).sum := by
  unfold supplyFromFlow
  dsimp only
  rw [distributeFlows]
  rw [distributeFold_totalH]
  rw [applyFlowEstimates_keys, applyDirectHouseholds_keys]
  have hkeys0 : (buildValveTree (mainValvesOf valves) (subValvesOf valves)).map Prod.fst =
      (mainValvesOf valves).map (fun v => v.valveId) := by
    rw [buildValveTree_of_nodup _ _ hnd, List.map_map]
    rfl
  have hterm : ∀ k ∈ (buildValveTree (mainValvesOf valves) (subValvesOf valves)).map Prod.fst,
      ((alistGet (applyFlowEstimates hav fd.segments pipelines
          (applyDirectHouseholds (mainValvesOf valves)
            (buildValveTree (mainValvesOf valves) (subValvesOf valves)))) k).map
        (fun n => n.totalHouseholds)).getD 0 =
      ((alistGet (buildValveTree (mainValvesOf valves) (subValvesOf valves)) k).map
        (fun n => n.totalHouseholds)).getD 0 := by
    intro k _
    rw [applyFlowEstimates_get, Option.map_map]
    have hcomp : ((fun n => n.totalHouseholds) ∘ nodeFlowUpdate hav fd.segments pipelines) =
        fun n : VTNode => n.totalHouseholds := by
      funext n
      exact nodeFlowUpdate_totalH hav fd.segments pipelines n
    rw [hcomp]
    rw [applyDirectHouseholds_proj (fun n => n.totalHouseholds) (fun n q => rfl)]
  rw [List.map_congr_left hterm]
  have hnd0 : ((buildValveTree (mainValvesOf valves) (subValvesOf valves)).map Prod.fst).Nodup := by
    rw [hkeys0]
    exact hnd
  rw [← entriesProj_eq (fun n => n.totalHouseholds) 0 _ hnd0]
  rw [buildValveTree_of_nodup _ _ hnd, List.map_map]
  simp only [Function.comp]
  rw [zero_add]
  rfl

/-- C9: `stats.totalHouseholds` sums only the main valves' households
(distinct main ids assumed, as the schema's primary key enforces): it
equals the sum of households over `valves.filter(category === 'main')`,
and appending any sub-category valve to the input leaves it unchanged, so
a sub valve with no main-valve parent contributes nothing. -/
theorem c9_totalHouseholds_mains_only (hav : Pos → Pos → ℚ) (tanks : List Tank)
    (valves : List Valve) (pipelines : List Pipeline) (r r' : SupplyOverview) (sv : Valve)
    (hnd : ((mainValvesOf valves).map (fun v => v.valveId)).Nodup)
    (h : calculateSupplyOverview hav tanks valves pipelines = Except.ok r)
    (hsv : sv.category = "sub")
    (h' : calculateSupplyOverview hav tanks (valves ++ [sv]) pipelines = Except.ok r') :
    r.stats.totalHouseholds = ((mainValvesOf valves).map (fun v => v.households)).sum ∧
      r'.stats.totalHouseholds = r.stats.totalHouseholds := by
  obtain ⟨fd, hfd, hr⟩ := calculateSupplyOverview_ok h
  obtain ⟨fd', hfd', hr'⟩ := calculateSupplyOverview_ok h'
  have hmains : mainValvesOf (valves ++ [sv]) = mainValvesOf valves := by
    unfold mainValvesOf
    rw [List.filter_append]
    have : List.filter (fun v => decide (v.category = "main")) [sv] = [] := by
      simp [hsv]
    rw [this, List.append_nil]
  constructor
  · rw [hr]
    exact supplyFromFlow_totalHouseholds hav tanks valves pipelines fd hnd
  · rw [hr, hr']
    rw [supplyFromFlow_totalHouseholds hav tanks valves pipelines fd hnd,
      supplyFromFlow_totalHouseholds hav tanks (valves ++ [sv]) pipelines fd'
        (by rw [hmains]; exact hnd)]
    rw [hmains]

/-- C9, witness: the theorem applied to the empty valve set and to the
dangling sub valve `valveSg` appended to it. -/
theorem c9_totalHouseholds_mains_only_witness :
    (⟨⟨0, 0, 0, 0, 0, 0, 0, 0⟩, [], []⟩ : SupplyOverview).stats.totalHouseholds =
        ((mainValvesOf []).map (fun v => v.households)).sum ∧
      (⟨⟨0, 0, 0, 0, 0, 0, 1, 0⟩, [⟨"R", [], 0, 0, 0⟩], []⟩ :
          SupplyOverview).stats.totalHouseholds =
        (⟨⟨0, 0, 0, 0, 0, 0, 0, 0⟩, [], []⟩ : SupplyOverview).stats.totalHouseholds :=
  c9_totalHouseholds_mains_only linDist [] [] []
    ⟨⟨0, 0, 0, 0, 0, 0, 0, 0⟩, [], []⟩
    ⟨⟨0, 0, 0, 0, 0, 0, 1, 0⟩, [⟨"R", [], 0, 0, 0⟩], []⟩ valveSg
    (by simp [mainValvesOf])
    (by norm_num +decide [calculateSupplyOverview, calculateFlowPaths, supplyFromFlow,
      mainValvesOf, subValvesOf, buildValveTree, applyDirectHouseholds, applyFlowEstimates,
      distributeFlows, buildRegions, jsToFixed, totalSegmentsCount])
    rfl
    (by norm_num +decide [calculateSupplyOverview, calculateFlowPaths, supplyFromFlow,
      mainValvesOf, subValvesOf, buildValveTree, applyDirectHouseholds, applyFlowEstimates,
      distributeFlows, distributeStep, buildRegions, alistGet, alistSet, alistUpdate,
      jsToFixed, totalSegmentsCount, valveSg])

/-- The "open households" of a tree node, as recomputed by the
distribution step: its direct households plus the households of its open
children. -/
def openHouseholdsOf (n : VTNode) : ℚ :=
  n.directHouseholds + (n.children.filter (·.isOpen)).foldl (fun sum c => sum + c.households) 0

theorem jsToFixed_zero (pow : ℚ) : jsToFixed pow 0 = 0 := by
  rw [jsToFixed, if_neg (lt_irrefl 0)]
  norm_num

theorem buildValveTree_values (mains subs : List Valve) :
    ∀ e ∈ buildValveTree mains subs, ∃ v ∈ mains, e.2 = initTreeNode subs v := by
  unfold buildValveTree
  have hgen : ∀ (ms : List Valve) (vt : ValveTree),
      ∀ e ∈ ms.foldl (fun vt valve => alistSet vt valve.valveId (initTreeNode subs valve)) vt,
        e ∈ vt ∨ ∃ v ∈ ms, e.2 = initTreeNode subs v := by
    intro ms
    induction ms with
    | nil => exact fun vt e he => Or.inl he
    | cons m rest ih =>
      intro vt e he
      rw [List.foldl_cons] at he
      rcases ih _ e he with h1 | ⟨v, hv, hev⟩
      · rcases alistSet_mem_cases h1 with h2 | h2
        · exact Or.inr ⟨m, List.mem_cons_self _ _, by rw [h2]⟩
        · exact Or.inl h2
      · exact Or.inr ⟨v, List.mem_cons_of_mem _ hv, hev⟩
  intro e he
  rcases hgen mains [] e he with h1 | h1
  · exact absurd h1 (List.not_mem_nil e)
  · exact h1

theorem applyDirectHouseholds_values (Q : VTNode → Prop)
    (hQ : ∀ (n : VTNode) (q : ℚ), Q n → Q { n with directHouseholds := q }) :
    ∀ (mains : List Valve) (vt : ValveTree), (∀ e ∈ vt, Q e.2) →
      ∀ e ∈ applyDirectHouseholds mains vt, Q e.2 := by
  intro mains
  induction mains with
  | nil => exact fun vt h => h
  | cons m rest ih =>
    intro vt h
    rw [applyDirectHouseholds, List.foldl_cons, ← applyDirectHouseholds]
    cases hget : alistGet vt m.valveId with
    | none => exact ih vt h
    | some node =>
      dsimp only
      apply ih
      intro e he
      rcases alistSet_mem_cases he with he' | he'
      · rw [he']
        exact hQ node _ (h _ (alistGet_some_mem_pair hget))
      · exact h e he'

theorem applyFlowEstimates_values (Q : VTNode → Prop)
    (hQ : ∀ (n : VTNode) (q : ℚ), Q n → Q { n with totalFlow := q })
    (hav : Pos → Pos → ℚ) (segments : List Segment) (pipelines : List Pipeline)
    (vt : ValveTree) (h : ∀ e ∈ vt, Q e.2) :
    ∀ e ∈ applyFlowEstimates hav segments pipelines vt, Q e.2 := by
  intro e he
  obtain ⟨x, hx, hxe⟩ := List.mem_map.mp he
  rw [← hxe]
  rw [nodeFlowUpdate]
  by_cases ho : x.2.valve.isOpen = true
  · rw [if_pos ho]
    exact hQ x.2 _ (h x hx)
  · rw [if_neg ho]
    exact hQ x.2 _ (h x hx)

theorem overwriteChildren_values (P : VTNode → Prop)
    (hPF : ∀ (w : VTNode) (q : ℚ), P w → P { w with totalFlow := q }) :
    ∀ (cs : List Valve) (fph : ℚ) (m : ValveTree), (∀ e ∈ m, P e.2) →
      ∀ e ∈ overwriteChildren cs fph m, P e.2 := by
  intro cs
  induction cs with
  | nil => exact fun fph m h => h
  | cons c rest ih =>
    intro fph m h
    rw [overwriteChildren_cons]
    cases hg : alistGet m c.valveId with
    | none => exact ih fph m h
    | some childNode =>
      apply ih
      intro e he
      rcases alistSet_mem_cases he with he' | he'
      · rw [he']
        exact hPF childNode _ (h _ (alistGet_some_mem_pair hg))
      · exact h e he'

theorem distributeStep_preserves_guard (vt : ValveTree) (acc : DistAcc) (key : String)
    (h : ∀ e ∈ vt, openHouseholdsOf e.2 = 0 →
      e.2.servedHouseholds = 0 ∧ e.2.directFlow = none) :
    ∀ e ∈ (distributeStep vt acc key).1, openHouseholdsOf e.2 = 0 →
      e.2.servedHouseholds = 0 ∧ e.2.directFlow = none := by
  rw [distributeStep]
  cases hget : alistGet vt key with
  | none => exact h
  | some node =>
    dsimp only
    by_cases ho : node.valve.isOpen = true
    · rw [if_pos ho]
      by_cases hto : node.directHouseholds +
          (node.children.filter (·.isOpen)).foldl (fun sum c => sum + c.households) 0 > 0
      · rw [if_pos hto]
        dsimp only
        apply overwriteChildren_values
          (fun w => openHouseholdsOf w = 0 → w.servedHouseholds = 0 ∧ w.directFlow = none)
          (fun w q hP => hP)
        intro e he
        rcases alistSet_mem_cases he with he' | he'
        · rw [he']
          intro h0
          have h0' : node.directHouseholds +
              (node.children.filter (·.isOpen)).foldl (fun sum c => sum + c.households) 0 = 0 :=
            h0
          rw [h0'] at hto
          exact absurd hto (lt_irrefl 0)
        · exact h e he'
      · rw [if_neg hto]
        exact h
    · rw [if_neg ho]
      exact h

theorem distributeFold_preserves_guard :
    ∀ (ks : List String) (vt : ValveTree) (acc : DistAcc),
      (∀ e ∈ vt, openHouseholdsOf e.2 = 0 →
        e.2.servedHouseholds = 0 ∧ e.2.directFlow = none) →
      ∀ e ∈ (ks.foldl (fun p key => distributeStep p.1 p.2 key) (vt, acc)).1,
        openHouseholdsOf e.2 = 0 → e.2.servedHouseholds = 0 ∧ e.2.directFlow = none := by
  intro ks
  induction ks with
  | nil => exact fun vt acc h => h
  | cons k ks ih =>
    intro vt acc h
    rw [List.foldl_cons]
    cases hstep : distributeStep vt acc k with
    | mk vt' acc' =>
      apply ih
      have := distributeStep_preserves_guard vt acc k h
      rw [hstep] at this
      exact this

/-- C8: the three ratio computations of the supply overview are all
guarded: zero total households forces `coverage = 0`, zero served
households forces `avgSupplyPerHousehold = 0`, and a tree node with zero
open households (the would-be flow-per-household denominator) is never
assigned a served count or a direct flow — the distribution block is
skipped entirely. -/
theorem c8_division_guards (hav : Pos → Pos → ℚ) (tanks : List Tank)
    (valves : List Valve) (pipelines : List Pipeline) (r : SupplyOverview)
    (h : calculateSupplyOverview hav tanks valves pipelines = Except.ok r) :
    (r.stats.totalHouseholds = 0 → r.stats.coverage = 0) ∧
      (r.stats.servedHouseholds = 0 → r.stats.avgSupplyPerHousehold = 0) ∧
      (∀ n ∈ r.valveTree, openHouseholdsOf n = 0 →
        n.servedHouseholds = 0 ∧ n.directFlow = none) := by
  obtain ⟨fd, hfd, hr⟩ := calculateSupplyOverview_ok h
  subst hr
  unfold supplyFromFlow
  dsimp only
  refine ⟨?_, ?_, ?_⟩
  · intro h0
    rw [h0, if_neg (lt_irrefl 0)]
    exact jsToFixed_zero 10
  · intro h0
    rw [h0, if_neg (lt_irrefl 0)]
    exact jsToFixed_zero 10
  · intro n hn
    obtain ⟨e, he, hen⟩ := List.mem_map.mp hn
    rw [← hen]
    revert he
    rw [distributeFlows]
    intro he
    have hstrong : ∀ e ∈ applyFlowEstimates hav fd.segments pipelines
        (applyDirectHouseholds (mainValvesOf valves)
          (buildValveTree (mainValvesOf valves) (subValvesOf valves))),
        e.2.servedHouseholds = 0 ∧ e.2.directFlow = none := by
      apply applyFlowEstimates_values
        (fun n => n.servedHouseholds = 0 ∧ n.directFlow = none) (fun n q hQ => hQ)
      apply applyDirectHouseholds_values
        (fun n => n.servedHouseholds = 0 ∧ n.directFlow = none) (fun n q hQ => hQ)
      intro e' he'
      obtain ⟨v, _, hv⟩ := buildValveTree_values _ _ e' he'
      rw [hv]
      exact ⟨rfl, rfl⟩
    exact distributeFold_preserves_guard _ _ _ (fun e he _ => hstrong e he) e he

/-- C8, witness: the guard theorem applied to the empty input, whose
overview has zero households everywhere. -/
theorem c8_division_guards_witness :
    ((⟨⟨0, 0, 0, 0, 0, 0, 0, 0⟩, [], []⟩ : SupplyOverview).stats.totalHouseholds = 0 →
        (⟨⟨0, 0, 0, 0, 0, 0, 0, 0⟩, [], []⟩ : SupplyOverview).stats.coverage = 0) ∧
      ((⟨⟨0, 0, 0, 0, 0, 0, 0, 0⟩, [], []⟩ : SupplyOverview).stats.servedHouseholds = 0 →
        (⟨⟨0, 0, 0, 0, 0, 0, 0, 0⟩, [], []⟩ :
          SupplyOverview).stats.avgSupplyPerHousehold = 0) ∧
      (∀ n ∈ (⟨⟨0, 0, 0, 0, 0, 0, 0, 0⟩, [], []⟩ : SupplyOverview).valveTree,
        openHouseholdsOf n = 0 → n.servedHouseholds = 0 ∧ n.directFlow = none) :=
  c8_division_guards linDist [] [] [] ⟨⟨0, 0, 0, 0, 0, 0, 0, 0⟩, [], []⟩
    (by norm_num +decide [calculateSupplyOverview, calculateFlowPaths, supplyFromFlow,
      mainValvesOf, subValvesOf, buildValveTree, applyDirectHouseholds, applyFlowEstimates,
      distributeFlows, buildRegions, jsToFixed, totalSegmentsCount])

theorem alistGet_of_mem_nodup {κ ν : Type} [DecidableEq κ]
    {m : List (κ × ν)} (hnd : (m.map Prod.fst).Nodup) {k : κ} {v : ν}
    (h : (k, v) ∈ m) : alistGet m k = some v := by
  induction m with
  | nil => cases h
  | cons e rest ih =>
    simp only [List.map_cons, List.nodup_cons] at hnd
    rcases List.mem_cons.mp h with h1 | h1
    · subst h1
      rw [alistGet, if_pos rfl]
    · have hk : k ∈ rest.map Prod.fst := List.mem_map_of_mem Prod.fst h1
      have hke : ¬ e.1 = k := fun he => hnd.1 (he ▸ hk)
      rw [alistGet, if_neg hke]
      exact ih hnd.2 h1

theorem alistSet_self_eq {κ ν : Type} [DecidableEq κ]
    {m : List (κ × ν)} {k : κ} {v : ν} (h : alistGet m k = some v) :
    alistSet m k v = m := by
  induction m with
  | nil => cases h
  | cons e rest ih =>
    rw [alistGet] at h
    rw [alistSet]
    by_cases hk : e.1 = k
    · rw [if_pos hk]
      rw [if_pos hk] at h
      injection h with h
      rw [← hk, ← h]
    · rw [if_neg hk]
      rw [if_neg hk] at h
      rw [ih h]

theorem overwriteChildren_disjoint (cs : List Valve) (fph : ℚ) (m : ValveTree)
    (h : ∀ c ∈ cs, ¬ c.valveId ∈ m.map Prod.fst) :
    overwriteChildren cs fph m = m := by
  induction cs with
  | nil => rfl
  | cons c rest ih =>
    rw [overwriteChildren_cons,
      alistGet_eq_none_of_not_mem (h c (List.mem_cons_self _ _))]
    exact ih (fun c' hc' => h c' (List.mem_cons_of_mem _ hc'))

/-- No tree entry's child is itself a tree key (true whenever sub-valve
ids are disjoint from main-valve ids, as the schema's primary key
guarantees). -/
def SelfDisj (vt : ValveTree) : Prop :=
  ∀ e ∈ vt, ∀ c ∈ e.2.children, ¬ c.valveId ∈ vt.map Prod.fst

/-- The net effect of one distribution iteration on its own tree entry,
when no child overwrite can land: an open entry with positive open
households gets its served count and direct flow set by the step-5
formulas; every other field — in particular `totalFlow` — is unchanged,
and entries in the skipped branches are untouched. -/
def distNodeResult (node : VTNode) : VTNode :=
  if node.valve.isOpen = true ∧ openHouseholdsOf node > 0 then
    { node with
      servedHouseholds := min (openHouseholdsOf node) ((⌊node.totalFlow / 10⌋ : ℤ) : ℚ)
      directFlow := some (node.directHouseholds * (node.totalFlow / openHouseholdsOf node)) }
  else node

theorem distNodeResult_valve (node : VTNode) : (distNodeResult node).valve = node.valve := by
  rw [distNodeResult]
  by_cases h : node.valve.isOpen = true ∧ openHouseholdsOf node > 0
  · rw [if_pos h]
  · rw [if_neg h]

theorem distNodeResult_children (node : VTNode) :
    (distNodeResult node).children = node.children := by
  rw [distNodeResult]
  by_cases h : node.valve.isOpen = true ∧ openHouseholdsOf node > 0
  · rw [if_pos h]
  · rw [if_neg h]

theorem distNodeResult_totalFlow (node : VTNode) :
    (distNodeResult node).totalFlow = node.totalFlow := by
  rw [distNodeResult]
  by_cases h : node.valve.isOpen = true ∧ openHouseholdsOf node > 0
  · rw [if_pos h]
  · rw [if_neg h]

theorem distNodeResult_directH (node : VTNode) :
    (distNodeResult node).directHouseholds = node.directHouseholds := by
  rw [distNodeResult]
  by_cases h : node.valve.isOpen = true ∧ openHouseholdsOf node > 0
  · rw [if_pos h]
  · rw [if_neg h]

theorem distNodeResult_openH (node : VTNode) :
    openHouseholdsOf (distNodeResult node) = openHouseholdsOf node := by
  rw [openHouseholdsOf, openHouseholdsOf, distNodeResult_children, distNodeResult_directH]

/-- Under `SelfDisj`, a distribution iteration is exactly an in-place
replacement of its own entry by `distNodeResult`. -/
theorem distributeStep_eq_set (vt : ValveTree) (acc : DistAcc) (key : String)
    (node : VTNode) (hget : alistGet vt key = some node) (hsd : SelfDisj vt) :
    (distributeStep vt acc key).1 = alistSet vt key (distNodeResult node) := by
  have hch : ∀ c ∈ node.children.filter (·.isOpen), ¬ c.valveId ∈ vt.map Prod.fst := by
    intro c hc
    exact hsd (key, node) (alistGet_some_mem_pair hget) c (List.mem_filter.mp hc).1
  rw [distributeStep]
  rw [hget]
  dsimp only
  by_cases ho : node.valve.isOpen = true
  · rw [if_pos ho]
    by_cases hto : node.directHouseholds +
        (node.children.filter (·.isOpen)).foldl (fun sum c => sum + c.households) 0 > 0
    · rw [if_pos hto]
      dsimp only
      have hkeys1 : (alistSet vt key
          { node with
            servedHouseholds := min (node.directHouseholds +
              (node.children.filter (·.isOpen)).foldl (fun sum c => sum + c.households) 0)
              ((⌊node.totalFlow / 10⌋ : ℤ) : ℚ)
            directFlow := some (node.directHouseholds * (node.totalFlow /
              (node.directHouseholds +
                (node.children.filter (·.isOpen)).foldl
                  (fun sum c => sum + c.households) 0))) }).map Prod.fst = vt.map Prod.fst :=
        alistSet_keys_of_mem _ (alistGet_some_mem hget)
      rw [overwriteChildren_disjoint _ _ _ (by rw [hkeys1]; exact hch)]
      rw [distNodeResult, if_pos ⟨ho, hto⟩]
      rfl
    · rw [if_neg hto]
      rw [distNodeResult, if_neg (fun hand => hto hand.2)]
      exact (alistSet_self_eq hget).symm
  · rw [if_neg ho]
    rw [distNodeResult, if_neg (fun hand => ho hand.1)]
    exact (alistSet_self_eq hget).symm

theorem distributeStep_selfDisj (vt : ValveTree) (acc : DistAcc) (key : String)
    (hsd : SelfDisj vt) : SelfDisj (distributeStep vt acc key).1 := by
  cases hget : alistGet vt key with
  | none =>
    have : (distributeStep vt acc key).1 = vt := by
      rw [distributeStep, hget]
    rw [this]
    exact hsd
  | some node =>
    rw [distributeStep_eq_set vt acc key node hget hsd]
    intro e he c hc
    rw [alistSet_keys_of_mem _ (alistGet_some_mem hget)]
    rcases alistSet_mem_cases he with he' | he'
    · rw [he'] at hc
      dsimp only at hc
      rw [distNodeResult_children] at hc
      exact hsd (key, node) (alistGet_some_mem_pair hget) c hc
    · exact hsd e he' c hc

/-- Full characterization of the distribution fold under `SelfDisj` and
distinct keys: every entry becomes `distNodeResult` of its
pre-distribution value; in particular no entry's `totalFlow` is ever
overwritten by a parent. -/
theorem distributeFold_char :
    ∀ (ks : List String) (vt : ValveTree) (acc : DistAcc),
      (vt.map Prod.fst).Nodup → SelfDisj vt → ks.Nodup →
      (∀ k ∈ ks, k ∈ vt.map Prod.fst) →
      ∀ (k : String) (node : VTNode), alistGet vt k = some node →
        alistGet ((ks.foldl (fun p key => distributeStep p.1 p.2 key) (vt, acc)).1) k =
          some (if k ∈ ks then distNodeResult node else node) := by
  intro ks
  induction ks with
  | nil =>
    intro vt acc _ _ _ _ k node hget
    rw [if_neg (List.not_mem_nil k)]
    exact hget
  | cons k0 ks ih =>
    intro vt acc hnd hsd hksnd hks k node hget
    rw [List.foldl_cons]
    simp only [List.nodup_cons] at hksnd
    obtain ⟨node0, hget0⟩ := Option.isSome_iff_exists.mp
      (alistGet_isSome_of_mem_keys (hks k0 (List.mem_cons_self _ _)))
    cases hstep : distributeStep vt acc k0 with
    | mk vt' acc' =>
      have hvt' : vt' = alistSet vt k0 (distNodeResult node0) := by
        have := distributeStep_eq_set vt acc k0 node0 hget0 hsd
        rw [hstep] at this
        exact this
      have hkeys' : vt'.map Prod.fst = vt.map Prod.fst := by
        rw [hvt']
        exact alistSet_keys_of_mem _ (alistGet_some_mem hget0)
      have hsd' : SelfDisj vt' := by
        have := distributeStep_selfDisj vt acc k0 hsd
        rw [hstep] at this
        exact this
      have hnd' : (vt'.map Prod.fst).Nodup := by
        rw [hkeys']
        exact hnd
      have hks' : ∀ k' ∈ ks, k' ∈ vt'.map Prod.fst := by
        intro k' hk'
        rw [hkeys']
        exact hks k' (List.mem_cons_of_mem _ hk')
      by_cases hkk : k = k0
      · subst hkk
        have hnode : node0 = node := by
          rw [hget] at hget0
          injection hget0 with h
          exact h.symm
        subst hnode
        have hget' : alistGet vt' k = some (distNodeResult node0) := by
          rw [hvt']
          exact alistGet_set_self _ _ _
        have := ih vt' acc' hnd' hsd' hksnd.2 hks' k (distNodeResult node0) hget'
        rw [this, if_neg hksnd.1, if_pos (List.mem_cons_self _ _)]
      · have hget' : alistGet vt' k = some node := by
          rw [hvt']
          rw [alistGet_set_ne _ _ _ _ (fun he => hkk he.symm)]
          exact hget
        have := ih vt' acc' hnd' hsd' hksnd.2 hks' k node hget'
        rw [this]
        by_cases hkmem : k ∈ ks
        · rw [if_pos hkmem, if_pos (List.mem_cons_of_mem _ hkmem)]
        · rw [if_neg hkmem, if_neg (by
            intro hmem
            rcases List.mem_cons.mp hmem with h1 | h1
            · exact hkk h1
            · exact hkmem h1)]

theorem nodeFlowUpdate_valve (hav : Pos → Pos → ℚ) (segments : List Segment)
    (pipelines : List Pipeline) (n : VTNode) :
    (nodeFlowUpdate hav segments pipelines n).valve = n.valve := by
  rw [nodeFlowUpdate]
  by_cases ho : n.valve.isOpen = true
  · rw [if_pos ho]
  · rw [if_neg ho]

theorem nodeFlowUpdate_children (hav : Pos → Pos → ℚ) (segments : List Segment)
    (pipelines : List Pipeline) (n : VTNode) :
    (nodeFlowUpdate hav segments pipelines n).children = n.children := by
  rw [nodeFlowUpdate]
  by_cases ho : n.valve.isOpen = true
  · rw [if_pos ho]
  · rw [if_neg ho]

theorem distNodeResult_pos (node : VTNode)
    (h : node.valve.isOpen = true ∧ openHouseholdsOf node > 0) :
    (distNodeResult node).servedHouseholds =
        min (openHouseholdsOf node) ((⌊node.totalFlow / 10⌋ : ℤ) : ℚ) ∧
      (distNodeResult node).directFlow =
        some (node.directHouseholds * (node.totalFlow / openHouseholdsOf node)) := by
  rw [distNodeResult, if_pos h]
  exact ⟨rfl, rfl⟩

/-- C2, amended: when sub-valve ids are disjoint from main-valve ids (as
the schema's shared primary key guarantees), the distribution step's
attempted overwrite of each open child's tree entry always misses — the
valve tree contains only main-valve entries, so each entry keeps its own
step-4 `totalFlow` estimate, and an open entry with positive open
households records `servedHouseholds = min(openHouseholds,
floor(totalFlow / 10))` and `directFlow = directHouseholds * (totalFlow /
openHouseholds)`; no output records a child's proportional share. -/
theorem c2_children_never_overwritten (hav : Pos → Pos → ℚ) (tanks : List Tank)
    (valves : List Valve) (pipelines : List Pipeline) (fd : FlowData) (r : SupplyOverview)
    (hnd : ((mainValvesOf valves).map (fun v => v.valveId)).Nodup)
    (hdisj : ∀ sv ∈ subValvesOf valves, ∀ mv ∈ mainValvesOf valves, sv.valveId ≠ mv.valveId)
    (hfd : calculateFlowPaths hav tanks valves pipelines = Except.ok fd)
    (h : calculateSupplyOverview hav tanks valves pipelines = Except.ok r) :
    ∀ n ∈ r.valveTree,
      n.valve ∈ mainValvesOf valves ∧
        n.totalFlow =
          (if n.valve.isOpen = true then step4Flow hav fd.segments pipelines n.valve else 0) ∧
        (n.valve.isOpen = true → openHouseholdsOf n > 0 →
          n.servedHouseholds = min (openHouseholdsOf n) ((⌊n.totalFlow / 10⌋ : ℤ) : ℚ) ∧
          n.directFlow = some (n.directHouseholds * (n.totalFlow / openHouseholdsOf n))) := by
  obtain ⟨fd', hfd', hr⟩ := calculateSupplyOverview_ok h
  rw [hfd] at hfd'
  injection hfd' with hfd'
  subst hfd'
  subst hr
  unfold supplyFromFlow
  dsimp only
  intro n hn
  obtain ⟨e, he, hen⟩ := List.mem_map.mp hn
  rw [distributeFlows] at he
  have hkeys2 : (applyFlowEstimates hav fd.segments pipelines
      (applyDirectHouseholds (mainValvesOf valves)
        (buildValveTree (mainValvesOf valves) (subValvesOf valves)))).map Prod.fst =
      (mainValvesOf valves).map (fun v => v.valveId) := by
    rw [applyFlowEstimates_keys, applyDirectHouseholds_keys,
      buildValveTree_of_nodup _ _ hnd, List.map_map]
    rfl
  have hnd2 : ((applyFlowEstimates hav fd.segments pipelines
      (applyDirectHouseholds (mainValvesOf valves)
        (buildValveTree (mainValvesOf valves) (subValvesOf valves)))).map Prod.fst).Nodup := by
    rw [hkeys2]
    exact hnd
  have hvt0get : ∀ (k : String) (w : VTNode),
      alistGet (buildValveTree (mainValvesOf valves) (subValvesOf valves)) k = some w →
      ∃ v ∈ mainValvesOf valves, w = initTreeNode (subValvesOf valves) v := by
    intro k w hw
    obtain ⟨v, hv, hvw⟩ :=
      buildValveTree_values (mainValvesOf valves) (subValvesOf valves) (k, w)
        (alistGet_some_mem_pair hw)
    exact ⟨v, hv, hvw⟩
  have hget2char : ∀ (k : String) (node2 : VTNode),
      alistGet (applyFlowEstimates hav fd.segments pipelines
        (applyDirectHouseholds (mainValvesOf valves)
          (buildValveTree (mainValvesOf valves) (subValvesOf valves)))) k = some node2 →
      ∃ v ∈ mainValvesOf valves, node2.valve = v ∧
        node2.children = (subValvesOf valves).filter
          (fun sv => decide (sv.parentValveId = some v.valveId)) ∧
        node2.totalFlow =
          (if node2.valve.isOpen = true then step4Flow hav fd.segments pipelines node2.valve
            else 0) := by
    intro k node2 hnode2
    rw [applyFlowEstimates_get] at hnode2
    cases hget1 : alistGet (applyDirectHouseholds (mainValvesOf valves)
        (buildValveTree (mainValvesOf valves) (subValvesOf valves))) k with
    | none =>
      rw [hget1] at hnode2
      cases hnode2
    | some node1 =>
      rw [hget1] at hnode2
      injection hnode2 with hnode2
      have hvalve1 : (alistGet (applyDirectHouseholds (mainValvesOf valves)
          (buildValveTree (mainValvesOf valves) (subValvesOf valves))) k).map
            (fun n => n.valve) =
          (alistGet (buildValveTree (mainValvesOf valves) (subValvesOf valves)) k).map
            (fun n => n.valve) :=
        applyDirectHouseholds_proj (fun n => n.valve) (fun n q => rfl) _ _ k
      have hchild1 : (alistGet (applyDirectHouseholds (mainValvesOf valves)
          (buildValveTree (mainValvesOf valves) (subValvesOf valves))) k).map
            (fun n => n.children) =
          (alistGet (buildValveTree (mainValvesOf valves) (subValvesOf valves)) k).map
            (fun n => n.children) :=
        applyDirectHouseholds_proj (fun n => n.children) (fun n q => rfl) _ _ k
      rw [hget1] at hvalve1 hchild1
      cases hget0 : alistGet (buildValveTree (mainValvesOf valves) (subValvesOf valves)) k with
      | none =>
        rw [hget0] at hvalve1
        cases hvalve1
      | some w =>
        rw [hget0] at hvalve1 hchild1
        injection hvalve1 with hvalve1
        injection hchild1 with hchild1
        have hvalve1' : node1.valve = w.valve := hvalve1
        have hchild1' : node1.children = w.children := hchild1
        obtain ⟨v, hv, hvw⟩ := hvt0get k w hget0
        refine ⟨v, hv, ?_, ?_, ?_⟩
        · rw [← hnode2, nodeFlowUpdate_valve, hvalve1', hvw]
          rfl
        · rw [← hnode2, nodeFlowUpdate_children, hchild1', hvw]
          rfl
        · rw [← hnode2, nodeFlowUpdate_valve]
          rw [nodeFlowUpdate]
          by_cases ho : node1.valve.isOpen = true
          · rw [if_pos ho, if_pos ho]
          · rw [if_neg ho, if_neg ho]
  have hsd2 : SelfDisj (applyFlowEstimates hav fd.segments pipelines
      (applyDirectHouseholds (mainValvesOf valves)
        (buildValveTree (mainValvesOf valves) (subValvesOf valves)))) := by
    intro e2 he2 c hc
    have hget2 := alistGet_of_mem_nodup hnd2 (show (e2.1, e2.2) ∈ _ from he2)
    obtain ⟨v, hv, _, hch, _⟩ := hget2char e2.1 e2.2 hget2
    rw [hch] at hc
    have hcsub : c ∈ subValvesOf valves := (List.mem_filter.mp hc).1
    rw [hkeys2]
    intro hmem
    obtain ⟨mv, hmv, hmvid⟩ := List.mem_map.mp hmem
    exact hdisj c hcsub mv hmv hmvid.symm
  have hefold : (e.1, e.2) ∈ (List.foldl (fun p key => distributeStep p.1 p.2 key)
      (applyFlowEstimates hav fd.segments pipelines
        (applyDirectHouseholds (mainValvesOf valves)
          (buildValveTree (mainValvesOf valves) (subValvesOf valves))),
        ⟨0, 0, 0⟩)
      ((applyFlowEstimates hav fd.segments pipelines
        (applyDirectHouseholds (mainValvesOf valves)
          (buildValveTree (mainValvesOf valves) (subValvesOf valves)))).map Prod.fst)).1 := he
  have hfoldnd : ((List.foldl (fun p key => distributeStep p.1 p.2 key)
      (applyFlowEstimates hav fd.segments pipelines
        (applyDirectHouseholds (mainValvesOf valves)
          (buildValveTree (mainValvesOf valves) (subValvesOf valves))),
        (⟨0, 0, 0⟩ : DistAcc))
      ((applyFlowEstimates hav fd.segments pipelines
        (applyDirectHouseholds (mainValvesOf valves)
          (buildValveTree (mainValvesOf valves) (subValvesOf valves)))).map Prod.fst)).1.map
      Prod.fst).Nodup := by
    rw [distributeFold_keys]
    exact hnd2
  have hgetfold := alistGet_of_mem_nodup hfoldnd hefold
  have hkmem : e.1 ∈ (applyFlowEstimates hav fd.segments pipelines
      (applyDirectHouseholds (mainValvesOf valves)
        (buildValveTree (mainValvesOf valves) (subValvesOf valves)))).map Prod.fst := by
    have := List.mem_map_of_mem Prod.fst hefold
    rw [distributeFold_keys] at this
    exact this
  obtain ⟨node2, hnode2⟩ := Option.isSome_iff_exists.mp (alistGet_isSome_of_mem_keys hkmem)
  have hchar := distributeFold_char
    ((applyFlowEstimates hav fd.segments pipelines
      (applyDirectHouseholds (mainValvesOf valves)
        (buildValveTree (mainValvesOf valves) (subValvesOf valves)))).map Prod.fst)
    _ ⟨0, 0, 0⟩ hnd2 hsd2 hnd2 (fun k hk => hk) e.1 node2 hnode2
  rw [if_pos hkmem] at hchar
  rw [hgetfold] at hchar
  injection hchar with hchar
  have hne : n = distNodeResult node2 := by
    rw [← hen, hchar]
  obtain ⟨v, hv, hvalve, hchild, hflow⟩ := hget2char e.1 node2 hnode2
  have hnv : n.valve = node2.valve := by
    rw [hne, distNodeResult_valve]
  have hnf : n.totalFlow = node2.totalFlow := by
    rw [hne, distNodeResult_totalFlow]
  have hnopen : openHouseholdsOf n = openHouseholdsOf node2 := by
    rw [hne, distNodeResult_openH]
  have hndh : n.directHouseholds = node2.directHouseholds := by
    rw [hne, distNodeResult_directH]
  refine ⟨?_, ?_, ?_⟩
  · rw [hnv, hvalve]
    exact hv
  · rw [hnf, hnv, hflow]
  · intro hopen hpos
    have hcond : node2.valve.isOpen = true ∧ openHouseholdsOf node2 > 0 :=
      ⟨by rw [← hnv]; exact hopen, by rw [← hnopen]; exact hpos⟩
    obtain ⟨hsrv, hdfl⟩ := distNodeResult_pos node2 hcond
    constructor
    · rw [hne, hsrv, distNodeResult_openH, distNodeResult_totalFlow]
    · rw [hne, hdfl, distNodeResult_openH, distNodeResult_totalFlow, distNodeResult_directH]


/-- Concrete run shared by the supply witnesses (the spec's Scenario C
configuration): one active tank feeding `pipe1`, an open main valve on the
segment and an open sub child far away; the single segment is flowing. -/
theorem calculateFlowPaths_scenC :
    calculateFlowPaths linDist [tankT] [valveM, valveS] [pipe1] =
      Except.ok ⟨[⟨"p1", ⟨0, 0⟩, ⟨0, 1/1000⟩, "T", true, false⟩], [], 1⟩ := by
  norm_num +decide [calculateFlowPaths, buildPipelineGraph, addWaypoints, getOrCreateNode,
    findNearbyNode, alistGet, alistSet, alistUpdate, bfsLoop, processEdges, seedQueue,
    nodePos, findBlockingValve, totalSegmentsCount, Except.map, linDist, fixed6, getNodeKey,
    tankT, valveM, valveS, pipe1, abs_of_nonneg, abs_of_nonpos]

/-- The full supply overview of the Scenario C run: the valve tree holds a
single entry (the main valve), which keeps its step-4 flow estimate 500
and records `directHouseholds = 60`, `servedHouseholds = 50` and
`directFlow = 300`. -/
theorem calculateSupplyOverview_scenC :
    calculateSupplyOverview linDist [tankT] [valveM, valveS] [pipe1] =
      Except.ok ⟨⟨100, 50, 50, 500, 10, 1, 1, 1⟩,
        [⟨"R", [⟨valveM, 500, 50⟩], 100, 50, 500⟩],
        [⟨valveM, [valveS], 100, 60, 50, 500, some 300⟩]⟩ := by
  rw [calculateSupplyOverview, calculateFlowPaths_scenC]
  norm_num +decide [supplyFromFlow, mainValvesOf, subValvesOf, buildValveTree, initTreeNode,
    applyDirectHouseholds, applyFlowEstimates, nodeFlowUpdate, step4Flow,
    findConnectedPipelines, hasSegmentWithin, pipelineHasFlow, distanceToSegment,
    distributeFlows, distributeStep, overwriteChildren, alistGet, alistSet, alistUpdate,
    buildRegions, jsToFixed, linDist, tankT, valveM, valveS, pipe1,
    abs_of_nonneg, abs_of_nonpos]


/-- C2, counterexample: the spec's own Scenario C configuration (main
valve with households 100, one open sub child with households 40,
estimated flow 500).  The resulting valve tree has exactly one entry —
the main valve's — which keeps its own step-4 `totalFlow` of 500 and
records `directFlow = 300`; the child's claimed proportional share
`40 * (500 / 100) = 200` is recorded nowhere, because the attempted
child overwrite looks the child's id up among the tree keys and the tree
is keyed by main valves only. -/
theorem c2_counterexample :
    (calculateSupplyOverview linDist [tankT] [valveM, valveS] [pipe1]).map
        (fun r => r.valveTree.map (fun n =>
          (n.valve.valveId, n.totalFlow, n.directHouseholds, n.servedHouseholds,
            n.directFlow))) =
      Except.ok [("m1", (500 : ℚ), 60, 50, some (300 : ℚ))] ∧
      valveS.households * ((500 : ℚ) / (100 : ℚ)) = 200 ∧
      (200 : ℚ) ≠ 500 ∧ (200 : ℚ) ≠ 300 := by
  refine ⟨?_, by norm_num [valveS], by norm_num, by norm_num⟩
  rw [calculateSupplyOverview_scenC]
  norm_num [Except.map, valveM]

/-- C2, witness: the amended theorem applied to the Scenario C run — the
single tree entry is the main valve's, it keeps its step-4 flow, and it
records `servedHouseholds = min(100, floor(500/10)) = 50` and
`directFlow = 60 * (500 / 100) = 300`. -/
theorem c2_children_never_overwritten_witness :
    (⟨valveM, [valveS], 100, 60, 50, 500, some 300⟩ : VTNode).valve ∈
        mainValvesOf [valveM, valveS] ∧
      (⟨valveM, [valveS], 100, 60, 50, 500, some 300⟩ : VTNode).totalFlow =
        step4Flow linDist [⟨"p1", ⟨0, 0⟩, ⟨0, 1/1000⟩, "T", true, false⟩] [pipe1]
          (⟨valveM, [valveS], 100, 60, 50, 500, some 300⟩ : VTNode).valve ∧
      (⟨valveM, [valveS], 100, 60, 50, 500, some 300⟩ : VTNode).servedHouseholds =
        min (openHouseholdsOf (⟨valveM, [valveS], 100, 60, 50, 500, some 300⟩ : VTNode))
          ((⌊(⟨valveM, [valveS], 100, 60, 50, 500, some 300⟩ : VTNode).totalFlow / 10⌋ : ℤ) : ℚ) ∧
      (⟨valveM, [valveS], 100, 60, 50, 500, some 300⟩ : VTNode).directFlow =
        some ((⟨valveM, [valveS], 100, 60, 50, 500, some 300⟩ : VTNode).directHouseholds *
          ((⟨valveM, [valveS], 100, 60, 50, 500, some 300⟩ : VTNode).totalFlow /
            openHouseholdsOf (⟨valveM, [valveS], 100, 60, 50, 500, some 300⟩ : VTNode))) := by
  have h := c2_children_never_overwritten linDist [tankT] [valveM, valveS] [pipe1]
    ⟨[⟨"p1", ⟨0, 0⟩, ⟨0, 1/1000⟩, "T", true, false⟩], [], 1⟩
    ⟨⟨100, 50, 50, 500, 10, 1, 1, 1⟩, [⟨"R", [⟨valveM, 500, 50⟩], 100, 50, 500⟩],
      [⟨valveM, [valveS], 100, 60, 50, 500, some 300⟩]⟩
    (by decide) (by decide) calculateFlowPaths_scenC calculateSupplyOverview_scenC
    ⟨valveM, [valveS], 100, 60, 50, 500, some 300⟩ (List.mem_singleton.mpr rfl)
  have h3 := h.2.2 rfl (by norm_num +decide [openHouseholdsOf, valveS])
  exact ⟨h.1, by rw [h.2.1]; rfl, h3.1, h3.2⟩


/-! ### Bounds machinery for the coverage claim -/

theorem nodeFlowUpdate_directH (hav : Pos → Pos → ℚ) (segments : List Segment)
    (pipelines : List Pipeline) (n : VTNode) :
    (nodeFlowUpdate hav segments pipelines n).directHouseholds = n.directHouseholds := by
  rw [nodeFlowUpdate]
  by_cases ho : n.valve.isOpen = true
  · rw [if_pos ho]
  · rw [if_neg ho]

theorem applyDirectHouseholds_get_not_mem :
    ∀ (mains : List Valve) (vt : ValveTree) (k : String),
      ¬ k ∈ mains.map (fun v => v.valveId) →
      alistGet (applyDirectHouseholds mains vt) k = alistGet vt k := by
  intro mains
  induction mains with
  | nil => intro vt k _; rfl
  | cons m rest ih =>
    intro vt k hk
    rw [applyDirectHouseholds, List.foldl_cons, ← applyDirectHouseholds]
    simp only [List.map_cons, List.mem_cons] at hk
    push_neg at hk
    cases hget : alistGet vt m.valveId with
    | none => exact ih vt k hk.2
    | some node =>
      dsimp only
      rw [ih _ k hk.2]
      exact alistGet_set_ne _ _ _ _ (fun h => hk.1 h.symm)

/-- The second `mainValves.forEach` assigns every main-valve entry the
`max(0, totalHouseholds - Σ children.households)` formula (later
iterations never undo it, and re-running it on the same key is
idempotent because the inputs of the formula are not modified). -/
theorem applyDirectHouseholds_char :
    ∀ (mains : List Valve) (vt : ValveTree) (k : String) (node1 : VTNode),
      k ∈ mains.map (fun v => v.valveId) →
      alistGet (applyDirectHouseholds mains vt) k = some node1 →
      node1.directHouseholds =
        max 0 (node1.totalHouseholds -
          node1.children.foldl (fun sum c => sum + c.households) 0) := by
  intro mains
  induction mains with
  | nil => intro vt k node1 hk; exact absurd hk (List.not_mem_nil k)
  | cons m rest ih =>
    intro vt k node1 hk hget
    rw [applyDirectHouseholds, List.foldl_cons, ← applyDirectHouseholds] at hget
    by_cases hkr : k ∈ rest.map (fun v => v.valveId)
    · cases hget0 : alistGet vt m.valveId with
      | none =>
        rw [hget0] at hget
        exact ih _ k node1 hkr hget
      | some node =>
        rw [hget0] at hget
        dsimp only at hget
        exact ih _ k node1 hkr hget
    · have hkm : k = m.valveId := by
        simp only [List.map_cons, List.mem_cons] at hk
        rcases hk with h | h
        · exact h
        · exact absurd h hkr
      cases hget0 : alistGet vt m.valveId with
      | none =>
        rw [hget0] at hget
        rw [applyDirectHouseholds_get_not_mem rest vt k hkr, hkm, hget0] at hget
        exact Option.noConfusion hget
      | some node =>
        rw [hget0] at hget
        dsimp only at hget
        rw [applyDirectHouseholds_get_not_mem rest _ k hkr, hkm, alistGet_set_self] at hget
        injection hget with hget
        rw [← hget]

theorem foldl_households_eq : ∀ (l : List Valve) (a : ℚ),
    l.foldl (fun sum c => sum + c.households) a = a + (l.map (fun c => c.households)).sum := by
  intro l
  induction l with
  | nil => intro a; simp
  | cons c l ih =>
    intro a
    rw [List.foldl_cons, ih, List.map_cons, List.sum_cons]
    ring

theorem households_sum_nonneg (l : List Valve) (h : ∀ c ∈ l, 0 ≤ c.households) :
    0 ≤ (l.map (fun c => c.households)).sum := by
  induction l with
  | nil => simp
  | cons c l ih =>
    rw [List.map_cons, List.sum_cons]
    exact add_nonneg (h c (List.mem_cons_self _ _))
      (ih (fun q hq => h q (List.mem_cons_of_mem _ hq)))

theorem filter_households_sum_le (p : Valve → Bool) :
    ∀ (l : List Valve), (∀ c ∈ l, 0 ≤ c.households) →
      ((l.filter p).map (fun c => c.households)).sum ≤ (l.map (fun c => c.households)).sum := by
  intro l
  induction l with
  | nil => simp
  | cons c l ih =>
    intro h
    have hc := h c (List.mem_cons_self _ _)
    have ih' := ih (fun q hq => h q (List.mem_cons_of_mem _ hq))
    rw [List.filter_cons]
    by_cases hp : p c = true
    · rw [if_pos hp, List.map_cons, List.sum_cons, List.map_cons, List.sum_cons]
      linarith
    · rw [if_neg hp, List.map_cons, List.sum_cons]
      linarith

theorem foldl_flow_nonneg (segments : List Segment) :
    ∀ (l : List Pipeline) (a : ℚ), (∀ p ∈ l, 0 ≤ p.capacity) → 0 ≤ a →
      0 ≤ l.foldl (fun sum pipe =>
        sum + (if pipelineHasFlow segments pipe.id then pipe.capacity * (4/5) else 0)) a := by
  intro l
  induction l with
  | nil => intro a _ ha; exact ha
  | cons p l ih =>
    intro a hcap ha
    rw [List.foldl_cons]
    apply ih _ (fun q hq => hcap q (List.mem_cons_of_mem _ hq))
    apply add_nonneg ha
    by_cases hf : pipelineHasFlow segments p.id = true
    · rw [if_pos hf]
      exact mul_nonneg (hcap p (List.mem_cons_self _ _)) (by norm_num)
    · rw [if_neg hf]

/-- The step-4 estimate is nonnegative whenever all pipeline capacities
are. -/
theorem step4Flow_nonneg (hav : Pos → Pos → ℚ) (segments : List Segment)
    (pipelines : List Pipeline) (v : Valve) (hcap : ∀ p ∈ pipelines, 0 ≤ p.capacity) :
    0 ≤ step4Flow hav segments pipelines v := by
  rw [step4Flow]
  apply foldl_flow_nonneg segments _ _ _ le_rfl
  intro p hp
  rw [findConnectedPipelines] at hp
  exact hcap p (List.mem_filter.mp hp).1


/-- Keys of the pre-distribution tree: exactly the main valves' ids, in
order. -/
theorem supplyTreeKeys (hav : Pos → Pos → ℚ) (segments : List Segment)
    (pipelines : List Pipeline) (valves : List Valve)
    (hnd : ((mainValvesOf valves).map (fun v => v.valveId)).Nodup) :
    (applyFlowEstimates hav segments pipelines
      (applyDirectHouseholds (mainValvesOf valves)
        (buildValveTree (mainValvesOf valves) (subValvesOf valves)))).map Prod.fst =
      (mainValvesOf valves).map (fun v => v.valveId) := by
  rw [applyFlowEstimates_keys, applyDirectHouseholds_keys,
    buildValveTree_of_nodup _ _ hnd, List.map_map]
  rfl

/-- Full characterization of a pre-distribution tree entry: it belongs
to a main valve, its children are the sub valves claiming that parent,
its `totalFlow` is the step-4 estimate (0 when closed), its
`totalHouseholds` is the valve's households, and its `directHouseholds`
follows the `max(0, totalHouseholds - Σ children.households)` formula. -/
theorem supplyEntryChar (hav : Pos → Pos → ℚ) (segments : List Segment)
    (pipelines : List Pipeline) (valves : List Valve)
    (hnd : ((mainValvesOf valves).map (fun v => v.valveId)).Nodup) :
    ∀ (k : String) (node2 : VTNode),
      alistGet (applyFlowEstimates hav segments pipelines
        (applyDirectHouseholds (mainValvesOf valves)
          (buildValveTree (mainValvesOf valves) (subValvesOf valves)))) k = some node2 →
      ∃ v ∈ mainValvesOf valves,
        node2.valve = v ∧
        node2.children = (subValvesOf valves).filter
          (fun sv => decide (sv.parentValveId = some v.valveId)) ∧
        node2.totalFlow = (if node2.valve.isOpen = true
          then step4Flow hav segments pipelines node2.valve else 0) ∧
        node2.totalHouseholds = v.households ∧
        node2.directHouseholds = max 0 (node2.totalHouseholds -
          node2.children.foldl (fun sum c => sum + c.households) 0) := by
  intro k node2 hnode2
  rw [applyFlowEstimates_get] at hnode2
  cases hget1 : alistGet (applyDirectHouseholds (mainValvesOf valves)
      (buildValveTree (mainValvesOf valves) (subValvesOf valves))) k with
  | none =>
    rw [hget1] at hnode2
    cases hnode2
  | some node1 =>
    rw [hget1] at hnode2
    injection hnode2 with hnode2
    have hvalve1 : (alistGet (applyDirectHouseholds (mainValvesOf valves)
        (buildValveTree (mainValvesOf valves) (subValvesOf valves))) k).map
          (fun n => n.valve) =
        (alistGet (buildValveTree (mainValvesOf valves) (subValvesOf valves)) k).map
          (fun n => n.valve) :=
      applyDirectHouseholds_proj (fun n => n.valve) (fun n q => rfl) _ _ k
    have hchild1 : (alistGet (applyDirectHouseholds (mainValvesOf valves)
        (buildValveTree (mainValvesOf valves) (subValvesOf valves))) k).map
          (fun n => n.children) =
        (alistGet (buildValveTree (mainValvesOf valves) (subValvesOf valves)) k).map
          (fun n => n.children) :=
      applyDirectHouseholds_proj (fun n => n.children) (fun n q => rfl) _ _ k
    have htot1 : (alistGet (applyDirectHouseholds (mainValvesOf valves)
        (buildValveTree (mainValvesOf valves) (subValvesOf valves))) k).map
          (fun n => n.totalHouseholds) =
        (alistGet (buildValveTree (mainValvesOf valves) (subValvesOf valves)) k).map
          (fun n => n.totalHouseholds) :=
      applyDirectHouseholds_proj (fun n => n.totalHouseholds) (fun n q => rfl) _ _ k
    rw [hget1] at hvalve1 hchild1 htot1
    cases hget0 : alistGet (buildValveTree (mainValvesOf valves) (subValvesOf valves)) k with
    | none =>
      rw [hget0] at hvalve1
      cases hvalve1
    | some w =>
      rw [hget0] at hvalve1 hchild1 htot1
      injection hvalve1 with hvalve1
      injection hchild1 with hchild1
      injection htot1 with htot1
      have hvalve1' : node1.valve = w.valve := hvalve1
      have hchild1' : node1.children = w.children := hchild1
      have htot1' : node1.totalHouseholds = w.totalHouseholds := htot1
      obtain ⟨v, hv, hvw0⟩ := buildValveTree_values (mainValvesOf valves) (subValvesOf valves)
        (k, w) (alistGet_some_mem_pair hget0)
      have hvw : w = initTreeNode (subValvesOf valves) v := hvw0
      have hkmem : k ∈ (mainValvesOf valves).map (fun v => v.valveId) := by
        have h1 : k ∈ (applyDirectHouseholds (mainValvesOf valves)
            (buildValveTree (mainValvesOf valves) (subValvesOf valves))).map Prod.fst :=
          List.mem_map_of_mem Prod.fst (alistGet_some_mem_pair hget1)
        rw [applyDirectHouseholds_keys, buildValveTree_of_nodup _ _ hnd,
          List.map_map] at h1
        exact h1
      have hdh1 := applyDirectHouseholds_char (mainValvesOf valves) _ k node1 hkmem hget1
      refine ⟨v, hv, ?_, ?_, ?_, ?_, ?_⟩
      · rw [← hnode2, nodeFlowUpdate_valve, hvalve1', hvw]
        rfl
      · rw [← hnode2, nodeFlowUpdate_children, hchild1', hvw]
        rfl
      · rw [← hnode2, nodeFlowUpdate_valve]
        rw [nodeFlowUpdate]
        by_cases ho : node1.valve.isOpen = true
        · rw [if_pos ho, if_pos ho]
        · rw [if_neg ho, if_neg ho]
      · rw [← hnode2, nodeFlowUpdate_totalH, htot1', hvw]
        rfl
      · rw [← hnode2, nodeFlowUpdate_directH, nodeFlowUpdate_totalH, nodeFlowUpdate_children]
        exact hdh1

/-- The pre-distribution tree satisfies the self-disjointness needed for
the distribution characterization, given schema-distinct valve ids. -/
theorem supplySelfDisj (hav : Pos → Pos → ℚ) (segments : List Segment)
    (pipelines : List Pipeline) (valves : List Valve)
    (hnd : ((mainValvesOf valves).map (fun v => v.valveId)).Nodup)
    (hdisj : ∀ sv ∈ subValvesOf valves, ∀ mv ∈ mainValvesOf valves, sv.valveId ≠ mv.valveId) :
    SelfDisj (applyFlowEstimates hav segments pipelines
      (applyDirectHouseholds (mainValvesOf valves)
        (buildValveTree (mainValvesOf valves) (subValvesOf valves)))) := by
  have hnd2 : ((applyFlowEstimates hav segments pipelines
      (applyDirectHouseholds (mainValvesOf valves)
        (buildValveTree (mainValvesOf valves) (subValvesOf valves)))).map Prod.fst).Nodup := by
    rw [supplyTreeKeys hav segments pipelines valves hnd]
    exact hnd
  intro e2 he2 c hc
  have hget2 := alistGet_of_mem_nodup hnd2 (show (e2.1, e2.2) ∈ _ from he2)
  obtain ⟨v, hv, _, hch, _, _, _⟩ := supplyEntryChar hav segments pipelines valves hnd
    e2.1 e2.2 hget2
  rw [hch] at hc
  have hcsub : c ∈ subValvesOf valves := (List.mem_filter.mp hc).1
  rw [supplyTreeKeys hav segments pipelines valves hnd]
  intro hmem
  obtain ⟨mv, hmv, hmvid⟩ := List.mem_map.mp hmem
  exact hdisj c hcsub mv hmv hmvid.symm

/-- The per-entry bounds that make the accumulated served count stay
below the accumulated household total: nonnegative households, open
households not exceeding the entry's household total, and nonnegative
estimated flow. -/
def NodeBounds (n : VTNode) : Prop :=
  0 ≤ n.totalHouseholds ∧ openHouseholdsOf n ≤ n.totalHouseholds ∧ 0 ≤ n.totalFlow

theorem distNodeResult_totalH (node : VTNode) :
    (distNodeResult node).totalHouseholds = node.totalHouseholds := by
  rw [distNodeResult]
  by_cases h : node.valve.isOpen = true ∧ openHouseholdsOf node > 0
  · rw [if_pos h]
  · rw [if_neg h]

theorem distNodeResult_nodeBounds (node : VTNode) (h : NodeBounds node) :
    NodeBounds (distNodeResult node) := by
  obtain ⟨h1, h2, h3⟩ := h
  refine ⟨?_, ?_, ?_⟩
  · rw [distNodeResult_totalH]; exact h1
  · rw [distNodeResult_openH, distNodeResult_totalH]; exact h2
  · rw [distNodeResult_totalFlow]; exact h3

theorem distributeStep_nodeBounds (vt : ValveTree) (acc : DistAcc) (key : String)
    (hsd : SelfDisj vt) (h : ∀ e ∈ vt, NodeBounds e.2) :
    ∀ e ∈ (distributeStep vt acc key).1, NodeBounds e.2 := by
  cases hget : alistGet vt key with
  | none =>
    have hid : (distributeStep vt acc key).1 = vt := by
      rw [distributeStep, hget]
    rw [hid]
    exact h
  | some node =>
    rw [distributeStep_eq_set vt acc key node hget hsd]
    intro e he
    rcases alistSet_mem_cases he with he' | he'
    · rw [he']
      exact distNodeResult_nodeBounds node (h _ (alistGet_some_mem_pair hget))
    · exact h e he'

theorem distributeStep_acc_bounds (vt : ValveTree) (acc : DistAcc) (key : String)
    (hg : ∀ e ∈ vt, NodeBounds e.2)
    (h0 : 0 ≤ acc.servedHouseholds) (h1 : acc.servedHouseholds ≤ acc.totalHouseholds) :
    0 ≤ (distributeStep vt acc key).2.servedHouseholds ∧
      (distributeStep vt acc key).2.servedHouseholds ≤
        (distributeStep vt acc key).2.totalHouseholds := by
  rw [distributeStep]
  cases hget : alistGet vt key with
  | none => exact ⟨h0, h1⟩
  | some node =>
    obtain ⟨hth, hoh, hfl⟩ := hg (key, node) (alistGet_some_mem_pair hget)
    dsimp only
    by_cases ho : node.valve.isOpen = true
    · rw [if_pos ho]
      by_cases hto : node.directHouseholds +
          (node.children.filter (·.isOpen)).foldl (fun sum c => sum + c.households) 0 > 0
      · rw [if_pos hto]
        dsimp only
        constructor
        · apply add_nonneg h0
          apply le_min (le_of_lt hto)
          have hq : (0 : ℚ) ≤ node.totalFlow / 10 := div_nonneg hfl (by norm_num)
          exact_mod_cast Int.floor_nonneg.mpr hq
        · exact add_le_add h1 (le_trans (min_le_left _ _) hoh)
      · rw [if_neg hto]
        exact ⟨h0, le_trans h1 (le_add_of_nonneg_right hth)⟩
    · rw [if_neg ho]
      exact ⟨h0, le_trans h1 (le_add_of_nonneg_right hth)⟩

theorem distributeFold_acc_bounds :
    ∀ (ks : List String) (vt : ValveTree) (acc : DistAcc),
      SelfDisj vt → (∀ e ∈ vt, NodeBounds e.2) →
      0 ≤ acc.servedHouseholds → acc.servedHouseholds ≤ acc.totalHouseholds →
      0 ≤ (ks.foldl (fun p key => distributeStep p.1 p.2 key) (vt, acc)).2.servedHouseholds ∧
        (ks.foldl (fun p key => distributeStep p.1 p.2 key) (vt, acc)).2.servedHouseholds ≤
          (ks.foldl (fun p key => distributeStep p.1 p.2 key) (vt, acc)).2.totalHouseholds := by
  intro ks
  induction ks with
  | nil =>
    intro vt acc _ _ h0 h1
    exact ⟨h0, h1⟩
  | cons k ks ih =>
    intro vt acc hsd hg h0 h1
    rw [List.foldl_cons]
    cases hstep : distributeStep vt acc k with
    | mk vt' acc' =>
      have hb := distributeStep_acc_bounds vt acc k hg h0 h1
      rw [hstep] at hb
      have hsd' : SelfDisj vt' := by
        have := distributeStep_selfDisj vt acc k hsd
        rw [hstep] at this
        exact this
      have hg' : ∀ e ∈ vt', NodeBounds e.2 := by
        have := distributeStep_nodeBounds vt acc k hsd hg
        rw [hstep] at this
        exact this
      exact ih vt' acc' hsd' hg' hb.1 hb.2

theorem jsToFixed_nonneg (pow x : ℚ) (hpow : 0 < pow) (hx : 0 ≤ x) :
    0 ≤ jsToFixed pow x := by
  rw [jsToFixed, if_neg (not_lt.mpr hx)]
  apply div_nonneg _ (le_of_lt hpow)
  exact_mod_cast Int.floor_nonneg.mpr
    (add_nonneg (mul_nonneg hx (le_of_lt hpow)) (by norm_num))

theorem jsToFixed10_le_100 (x : ℚ) (hx : 0 ≤ x) (hb : x ≤ 100) :
    jsToFixed 10 x ≤ 100 := by
  rw [jsToFixed, if_neg (not_lt.mpr hx)]
  rw [div_le_iff₀ (by norm_num : (0 : ℚ) < 10)]
  have hhalf : (⌊(1/2 : ℚ)⌋ : ℤ) = 0 := by
    rw [Int.floor_eq_zero_iff]
    constructor <;> norm_num
  have h1 : (⌊x * 10 + 1/2⌋ : ℤ) ≤ 1000 := by
    have hle : x * 10 + 1/2 ≤ 1/2 + ((1000 : ℤ) : ℚ) := by
      push_cast
      linarith
    calc (⌊x * 10 + 1/2⌋ : ℤ) ≤ ⌊(1/2 : ℚ) + ((1000 : ℤ) : ℚ)⌋ := Int.floor_le_floor hle
      _ = ⌊(1/2 : ℚ)⌋ + 1000 := Int.floor_add_int _ _
      _ = 1000 := by rw [hhalf]; ring
  calc ((⌊x * 10 + 1/2⌋ : ℤ) : ℚ) ≤ ((1000 : ℤ) : ℚ) := by exact_mod_cast h1
    _ = 100 * 10 := by norm_num

/-- Every pre-distribution tree entry satisfies the per-entry bounds,
given nonnegative households and capacities and main valves whose
households dominate their children's. -/
theorem supplyTreeBounds (hav : Pos → Pos → ℚ) (segments : List Segment)
    (pipelines : List Pipeline) (valves : List Valve)
    (hnd : ((mainValvesOf valves).map (fun v => v.valveId)).Nodup)
    (hh : ∀ v ∈ valves, 0 ≤ v.households)
    (hcap : ∀ p ∈ pipelines, 0 ≤ p.capacity)
    (hpar : ∀ v ∈ mainValvesOf valves,
      ((subValvesOf valves).filter
        (fun sv => decide (sv.parentValveId = some v.valveId))).foldl
          (fun sum c => sum + c.households) 0 ≤ v.households) :
    ∀ e ∈ applyFlowEstimates hav segments pipelines
      (applyDirectHouseholds (mainValvesOf valves)
        (buildValveTree (mainValvesOf valves) (subValvesOf valves))), NodeBounds e.2 := by
  have hnd2 : ((applyFlowEstimates hav segments pipelines
      (applyDirectHouseholds (mainValvesOf valves)
        (buildValveTree (mainValvesOf valves) (subValvesOf valves)))).map Prod.fst).Nodup := by
    rw [supplyTreeKeys hav segments pipelines valves hnd]
    exact hnd
  intro e he
  have hget := alistGet_of_mem_nodup hnd2 (show (e.1, e.2) ∈ _ from he)
  obtain ⟨v, hv, hvalve, hch, hflow, htot, hdh⟩ :=
    supplyEntryChar hav segments pipelines valves hnd e.1 e.2 hget
  have hvmem : v ∈ valves := (List.mem_filter.mp hv).1
  have hchmem : ∀ c ∈ e.2.children, 0 ≤ c.households := by
    intro c hc
    rw [hch] at hc
    exact hh c (List.mem_filter.mp (List.mem_filter.mp hc).1).1
  refine ⟨?_, ?_, ?_⟩
  · rw [htot]
    exact hh v hvmem
  · rw [openHouseholdsOf]
    have hS : e.2.children.foldl (fun sum c => sum + c.households) 0 ≤
        e.2.totalHouseholds := by
      rw [htot, hch]
      exact hpar v hv
    have hSopen : (e.2.children.filter (·.isOpen)).foldl
        (fun sum c => sum + c.households) 0 ≤
        e.2.children.foldl (fun sum c => sum + c.households) 0 := by
      rw [foldl_households_eq, foldl_households_eq]
      have := filter_households_sum_le (·.isOpen) e.2.children hchmem
      linarith
    rw [hdh]
    rw [max_eq_right (by linarith :
      (0 : ℚ) ≤ e.2.totalHouseholds -
        e.2.children.foldl (fun sum c => sum + c.households) 0)]
    linarith
  · rw [hflow]
    by_cases ho : e.2.valve.isOpen = true
    · rw [if_pos ho]
      exact step4Flow_nonneg hav segments pipelines e.2.valve hcap
    · rw [if_neg ho]

/-- C3, amended: under the schema's guarantees — distinct valve ids,
nonnegative households and capacities, and each main valve's households
at least the sum of its children's — the reported coverage percentage
satisfies `0 ≤ coverage ≤ 100`; without the last assumption the bound
fails (see the counterexample: served households are counted against
open children while the denominator counts only the main valve's own
households). -/
theorem c3_coverage_bounded (hav : Pos → Pos → ℚ) (tanks : List Tank)
    (valves : List Valve) (pipelines : List Pipeline) (r : SupplyOverview)
    (hnd : ((mainValvesOf valves).map (fun v => v.valveId)).Nodup)
    (hdisj : ∀ sv ∈ subValvesOf valves, ∀ mv ∈ mainValvesOf valves, sv.valveId ≠ mv.valveId)
    (hh : ∀ v ∈ valves, 0 ≤ v.households)
    (hcap : ∀ p ∈ pipelines, 0 ≤ p.capacity)
    (hpar : ∀ v ∈ mainValvesOf valves,
      ((subValvesOf valves).filter
        (fun sv => decide (sv.parentValveId = some v.valveId))).foldl
          (fun sum c => sum + c.households) 0 ≤ v.households)
    (h : calculateSupplyOverview hav tanks valves pipelines = Except.ok r) :
    0 ≤ r.stats.coverage ∧ r.stats.coverage ≤ 100 := by
  obtain ⟨fd, hfd, hr⟩ := calculateSupplyOverview_ok h
  subst hr
  unfold supplyFromFlow
  dsimp only
  rw [distributeFlows]
  have hsd2 := supplySelfDisj hav fd.segments pipelines valves hnd hdisj
  have hg2 := supplyTreeBounds hav fd.segments pipelines valves hnd hh hcap hpar
  have hacc := distributeFold_acc_bounds
    ((applyFlowEstimates hav fd.segments pipelines
      (applyDirectHouseholds (mainValvesOf valves)
        (buildValveTree (mainValvesOf valves) (subValvesOf valves)))).map Prod.fst)
    (applyFlowEstimates hav fd.segments pipelines
      (applyDirectHouseholds (mainValvesOf valves)
        (buildValveTree (mainValvesOf valves) (subValvesOf valves))))
    ⟨0, 0, 0⟩ hsd2 hg2 le_rfl le_rfl
  obtain ⟨hs0, hst⟩ := hacc
  by_cases hT : ((applyFlowEstimates hav fd.segments pipelines
      (applyDirectHouseholds (mainValvesOf valves)
        (buildValveTree (mainValvesOf valves) (subValvesOf valves)))).map Prod.fst).foldl
      (fun p key => distributeStep p.1 p.2 key)
      ((applyFlowEstimates hav fd.segments pipelines
        (applyDirectHouseholds (mainValvesOf valves)
          (buildValveTree (mainValvesOf valves) (subValvesOf valves)))), ⟨0, 0, 0⟩)
      |>.2.totalHouseholds > 0
  · rw [if_pos hT]
    have hge : (0 : ℚ) ≤ _ / _ := div_nonneg hs0 (le_of_lt hT)
    have hles := (div_le_one hT).mpr hst
    constructor
    · exact jsToFixed_nonneg 10 _ (by norm_num) (mul_nonneg hge (by norm_num))
    · exact jsToFixed10_le_100 _ (mul_nonneg hge (by norm_num)) (by nlinarith)
  · rw [if_neg hT, jsToFixed_zero]
    norm_num

/-- C3, counterexample: a main valve with 10 households and an open sub
child with 40, fed 4000 units of flow by a 5000-capacity pipeline.  The
denominator of the coverage ratio counts only the main valve's
households (10) while the served count also credits the child's 40, so
the reported coverage is 400 percent. -/
theorem c3_counterexample :
    (calculateSupplyOverview linDist [tankT] [valveM3, valveS] [pipe3]).map
        (fun r => r.stats.coverage) = Except.ok 400 ∧ ¬ ((400 : ℚ) ≤ 100) := by
  constructor
  · norm_num +decide [calculateSupplyOverview, calculateFlowPaths, buildPipelineGraph,
      addWaypoints, getOrCreateNode, findNearbyNode, alistGet, alistSet, alistUpdate,
      bfsLoop, processEdges, seedQueue, nodePos, findBlockingValve, totalSegmentsCount,
      Except.map, supplyFromFlow, mainValvesOf, subValvesOf, buildValveTree, initTreeNode,
      applyDirectHouseholds, applyFlowEstimates, nodeFlowUpdate, step4Flow,
      findConnectedPipelines, hasSegmentWithin, pipelineHasFlow, distanceToSegment,
      distributeFlows, distributeStep, overwriteChildren, buildRegions, jsToFixed,
      linDist, fixed6, getNodeKey, tankT, valveM3, valveS, pipe3,
      abs_of_nonneg, abs_of_nonpos]
  · norm_num

/-- C3, witness: the amended bound applied to the Scenario C run, whose
input satisfies every schema hypothesis; its reported coverage is 50. -/
theorem c3_coverage_bounded_witness :
    0 ≤ (⟨⟨100, 50, 50, 500, 10, 1, 1, 1⟩,
        [⟨"R", [⟨valveM, 500, 50⟩], 100, 50, 500⟩],
        [⟨valveM, [valveS], 100, 60, 50, 500, some 300⟩]⟩ :
          SupplyOverview).stats.coverage ∧
      (⟨⟨100, 50, 50, 500, 10, 1, 1, 1⟩,
        [⟨"R", [⟨valveM, 500, 50⟩], 100, 50, 500⟩],
        [⟨valveM, [valveS], 100, 60, 50, 500, some 300⟩]⟩ :
          SupplyOverview).stats.coverage ≤ 100 :=
  c3_coverage_bounded linDist [tankT] [valveM, valveS] [pipe1]
    ⟨⟨100, 50, 50, 500, 10, 1, 1, 1⟩,
      [⟨"R", [⟨valveM, 500, 50⟩], 100, 50, 500⟩],
      [⟨valveM, [valveS], 100, 60, 50, 500, some 300⟩]⟩
    (by decide) (by decide)
    (by
      intro v hv
      rcases List.mem_cons.mp hv with h | h
      · subst h
        norm_num [valveM]
      · rw [List.mem_singleton.mp h]
        norm_num [valveS])
    (by
      intro p hp
      rw [List.mem_singleton.mp hp]
      norm_num [pipe1])
    (by
      intro v hv
      have hm : mainValvesOf [valveM, valveS] = [valveM] := by
        norm_num +decide [mainValvesOf, valveM, valveS]
      rw [hm] at hv
      rw [List.mem_singleton.mp hv]
      norm_num +decide [subValvesOf, valveM, valveS])
    calculateSupplyOverview_scenC

/-! ### Regional-aggregation lemmas -/

/-- Invariant of a regions bucket: every listed valve satisfies `Q`, and
the bucket's household total is exactly the sum over its listed valves. -/
def RegionInv (Q : Valve → Prop) (g : Region) : Prop :=
  (∀ rv ∈ g.valves, Q rv.valve) ∧
  g.totalHouseholds = (g.valves.map (fun rv => rv.valve.households)).sum

theorem buildRegions_inv (Q : Valve → Prop) (vt : ValveTree) :
    ∀ (vs : List Valve) (acc : List (String × Region)),
      (∀ v ∈ vs, (alistGet vt v.valveId).isSome = true → Q v) →
      (∀ e ∈ acc, RegionInv Q e.2) →
      ∀ e ∈ vs.foldl (fun regions valve =>
        let regions1 :=
          if (alistGet regions valve.mandal).isSome then regions
          else alistSet regions valve.mandal ⟨valve.mandal, [], 0, 0, 0⟩
        match alistGet vt valve.valveId with
        | none => regions1
        | some node =>
          alistUpdate regions1 valve.mandal (fun r =>
            { r with
              valves := r.valves ++ [⟨valve, node.totalFlow, node.servedHouseholds⟩]
              totalHouseholds := r.totalHouseholds + valve.households
              servedHouseholds := r.servedHouseholds + node.servedHouseholds
              totalFlow := r.totalFlow + node.totalFlow })) acc,
        RegionInv Q e.2 := by
  intro vs
  induction vs with
  | nil =>
    intro acc _ hacc
    exact hacc
  | cons v vs ih =>
    intro acc hQ hacc
    rw [List.foldl_cons]
    apply ih _ (fun w hw hsome => hQ w (List.mem_cons_of_mem _ hw) hsome)
    have hreg1 : ∀ e' ∈ (if (alistGet acc v.mandal).isSome then acc
        else alistSet acc v.mandal ⟨v.mandal, [], 0, 0, 0⟩), RegionInv Q e'.2 := by
      intro e' he'
      by_cases hs : (alistGet acc v.mandal).isSome = true
      · rw [if_pos hs] at he'
        exact hacc e' he'
      · rw [if_neg hs] at he'
        rcases alistSet_mem_cases he' with h1 | h1
        · rw [h1]
          exact ⟨fun rv hrv => absurd hrv (List.not_mem_nil rv), by simp⟩
        · exact hacc e' h1
    intro e he
    dsimp only at he
    cases hget : alistGet vt v.valveId with
    | none =>
      rw [hget] at he
      exact hreg1 e he
    | some node =>
      rw [hget] at he
      rcases alistUpdate_mem_cases he with h1 | ⟨g, hg, heq⟩
      · exact hreg1 e h1
      · rw [heq]
        obtain ⟨hQg, hSg⟩ := hreg1 (v.mandal, g) hg
        constructor
        · intro rv hrv
          rcases List.mem_append.mp hrv with h2 | h2
          · exact hQg rv h2
          · rw [List.mem_singleton.mp h2]
            exact hQ v (List.mem_cons_self _ _) (by rw [hget]; rfl)
        · show g.totalHouseholds + v.households = _
          rw [List.map_append, List.sum_append, hSg, List.map_cons, List.map_nil,
            List.sum_cons, List.sum_nil]
          ring

theorem buildRegions_values (Q : Valve → Prop) (vt : ValveTree) (valves : List Valve)
    (hQ : ∀ v ∈ valves, (alistGet vt v.valveId).isSome = true → Q v) :
    ∀ e ∈ buildRegions valves vt, RegionInv Q e.2 := by
  rw [buildRegions]
  exact buildRegions_inv Q vt valves [] hQ (fun e he => absurd he (List.not_mem_nil e))

/-- C6, amended: a sub valve whose `parentValveId` matches no valve is
absent from every tree entry's children list and is counted in the flat
`stats.subValves` tally, but — contrary to the claim — it is excluded
from the regional aggregation: every valve listed in a region is a main
valve (sub valves never pass the tree-entry test), the dangling sub is
listed in no region, and each region's household total sums exactly the
households of its listed (main) valves. -/
theorem c6_dangling_sub_region_exclusion (hav : Pos → Pos → ℚ) (tanks : List Tank)
    (valves : List Valve) (pipelines : List Pipeline) (r : SupplyOverview) (sv : Valve)
    (hvnd : (valves.map (fun v => v.valveId)).Nodup)
    (hsv : sv ∈ subValvesOf valves)
    (hdang : ∀ v ∈ valves, ¬ sv.parentValveId = some v.valveId)
    (h : calculateSupplyOverview hav tanks valves pipelines = Except.ok r) :
    (∀ n ∈ r.valveTree, ¬ sv ∈ n.children) ∧
      r.stats.subValves = (subValvesOf valves).length ∧
      (∀ g ∈ r.regions, ∀ rv ∈ g.valves, rv.valve ∈ mainValvesOf valves ∧ rv.valve ≠ sv) ∧
      (∀ g ∈ r.regions, g.totalHouseholds =
        (g.valves.map (fun rv => rv.valve.households)).sum) := by
  obtain ⟨fd, hfd, hr⟩ := calculateSupplyOverview_ok h
  subst hr
  unfold supplyFromFlow
  dsimp only
  rw [distributeFlows]
  have hnd : ((mainValvesOf valves).map (fun v => v.valveId)).Nodup := by
    have hsub : List.Sublist ((mainValvesOf valves).map (fun v => v.valveId))
        (valves.map (fun v => v.valveId)) :=
      List.Sublist.map _ (List.filter_sublist valves)
    exact hvnd.sublist hsub
  have hnd2 : (((applyFlowEstimates hav fd.segments pipelines
      (applyDirectHouseholds (mainValvesOf valves)
        (buildValveTree (mainValvesOf valves) (subValvesOf valves)))).map Prod.fst)).Nodup := by
    rw [supplyTreeKeys hav fd.segments pipelines valves hnd]
    exact hnd
  have hkeys1 : (((applyFlowEstimates hav fd.segments pipelines
      (applyDirectHouseholds (mainValvesOf valves)
        (buildValveTree (mainValvesOf valves) (subValvesOf valves)))).map Prod.fst).foldl
      (fun p key => distributeStep p.1 p.2 key)
      ((applyFlowEstimates hav fd.segments pipelines
        (applyDirectHouseholds (mainValvesOf valves)
          (buildValveTree (mainValvesOf valves) (subValvesOf valves)))), ⟨0, 0, 0⟩)).1.map
        Prod.fst =
      (applyFlowEstimates hav fd.segments pipelines
        (applyDirectHouseholds (mainValvesOf valves)
          (buildValveTree (mainValvesOf valves) (subValvesOf valves)))).map Prod.fst :=
    distributeFold_keys _ _ _
  have hQ : ∀ v ∈ valves,
      (alistGet (((applyFlowEstimates hav fd.segments pipelines
        (applyDirectHouseholds (mainValvesOf valves)
          (buildValveTree (mainValvesOf valves) (subValvesOf valves)))).map Prod.fst).foldl
        (fun p key => distributeStep p.1 p.2 key)
        ((applyFlowEstimates hav fd.segments pipelines
          (applyDirectHouseholds (mainValvesOf valves)
            (buildValveTree (mainValvesOf valves) (subValvesOf valves)))), ⟨0, 0, 0⟩)).1
        v.valveId).isSome = true →
      (v ∈ mainValvesOf valves ∧ v ≠ sv) := by
    intro v hvmem hsome
    obtain ⟨n, hn⟩ := Option.isSome_iff_exists.mp hsome
    have hk := List.mem_map_of_mem Prod.fst (alistGet_some_mem_pair hn)
    rw [hkeys1, supplyTreeKeys hav fd.segments pipelines valves hnd] at hk
    obtain ⟨mv, hmv, hmvid⟩ := List.mem_map.mp hk
    have hveq : v = mv :=
      List.inj_on_of_nodup_map hvnd hvmem (List.mem_filter.mp hmv).1 hmvid.symm
    constructor
    · rw [hveq]
      exact hmv
    · intro heq
      have h1 : mv.category = "main" := of_decide_eq_true (List.mem_filter.mp hmv).2
      have h2 : sv.category = "sub" := of_decide_eq_true (List.mem_filter.mp hsv).2
      have hms : mv = sv := by rw [← hveq, heq]
      rw [hms, h2] at h1
      exact absurd h1 (by decide)
  have hrv := buildRegions_values (fun v => v ∈ mainValvesOf valves ∧ v ≠ sv) _ valves hQ
  refine ⟨?_, rfl, ?_, ?_⟩
  · intro n hn
    obtain ⟨e, he, hen⟩ := List.mem_map.mp hn
    have hfnd : ((((applyFlowEstimates hav fd.segments pipelines
        (applyDirectHouseholds (mainValvesOf valves)
          (buildValveTree (mainValvesOf valves) (subValvesOf valves)))).map Prod.fst).foldl
        (fun p key => distributeStep p.1 p.2 key)
        ((applyFlowEstimates hav fd.segments pipelines
          (applyDirectHouseholds (mainValvesOf valves)
            (buildValveTree (mainValvesOf valves) (subValvesOf valves)))),
          ⟨0, 0, 0⟩)).1.map Prod.fst).Nodup := by
      rw [hkeys1]
      exact hnd2
    have hget := alistGet_of_mem_nodup hfnd (show (e.1, e.2) ∈ _ from he)
    have hstab := distributeFold_proj_stable (fun n => n.children) (fun n q => rfl)
      (fun n s d => rfl)
      ((applyFlowEstimates hav fd.segments pipelines
        (applyDirectHouseholds (mainValvesOf valves)
          (buildValveTree (mainValvesOf valves) (subValvesOf valves)))).map Prod.fst)
      (applyFlowEstimates hav fd.segments pipelines
        (applyDirectHouseholds (mainValvesOf valves)
          (buildValveTree (mainValvesOf valves) (subValvesOf valves))))
      ⟨0, 0, 0⟩ e.1
    rw [hget] at hstab
    cases hget2 : alistGet (applyFlowEstimates hav fd.segments pipelines
        (applyDirectHouseholds (mainValvesOf valves)
          (buildValveTree (mainValvesOf valves) (subValvesOf valves)))) e.1 with
    | none =>
      rw [hget2] at hstab
      exact Option.noConfusion hstab
    | some node2 =>
      rw [hget2] at hstab
      injection hstab with hstab
      have hchv : e.2.children = node2.children := hstab
      obtain ⟨v, hv, _, hch, _, _, _⟩ :=
        supplyEntryChar hav fd.segments pipelines valves hnd e.1 node2 hget2
      intro hmem
      rw [← hen, hchv, hch] at hmem
      exact hdang v (List.mem_filter.mp hv).1
        (of_decide_eq_true (List.mem_filter.mp hmem).2)
  · intro g hg rv hrvmem
    obtain ⟨e, he, heg⟩ := List.mem_map.mp hg
    rw [← heg] at hrvmem
    exact (hrv e he).1 rv hrvmem
  · intro g hg
    obtain ⟨e, he, heg⟩ := List.mem_map.mp hg
    rw [← heg]
    exact (hrv e he).2

/-- Concrete run shared by the C6 results: one main valve and one sub
valve whose `parentValveId` references the non-existent id "ghost", no
tanks and no pipelines. -/
theorem calculateSupplyOverview_ghostRun :
    calculateSupplyOverview linDist [] [valveM3, valveSg] [] =
      Except.ok ⟨⟨10, 0, 0, 0, 0, 1, 1, 0⟩,
        [⟨"R", [⟨valveM3, 0, 0⟩], 10, 0, 0⟩],
        [⟨valveM3, [], 10, 10, 0, 0, some 0⟩]⟩ := by
  norm_num +decide [calculateSupplyOverview, calculateFlowPaths, buildPipelineGraph,
    addWaypoints, getOrCreateNode, findNearbyNode, alistGet, alistSet, alistUpdate,
    bfsLoop, processEdges, seedQueue, nodePos, findBlockingValve, totalSegmentsCount,
    Except.map, supplyFromFlow, mainValvesOf, subValvesOf, buildValveTree, initTreeNode,
    applyDirectHouseholds, applyFlowEstimates, nodeFlowUpdate, step4Flow,
    findConnectedPipelines, hasSegmentWithin, pipelineHasFlow, distanceToSegment,
    distributeFlows, distributeStep, overwriteChildren, buildRegions, jsToFixed,
    linDist, fixed6, getNodeKey, valveM3, valveSg, abs_of_nonneg, abs_of_nonpos]

/-- C6, counterexample: with a main valve of 10 households and a
dangling sub valve of 7 households in the same mandal "R", the region
"R" lists only the main valve and totals 10 households — the sub valve's
7 households are NOT counted in its region's totals, contradicting the
claim's "its households counted in its region's totals". -/
theorem c6_counterexample :
    (calculateSupplyOverview linDist [] [valveM3, valveSg] []).map
        (fun r => r.regions.map (fun g => (g.name, g.totalHouseholds,
          g.valves.map (fun rv => rv.valve.valveId)))) =
      Except.ok [("R", (10 : ℚ), ["m1"])] ∧
      valveSg.mandal = "R" ∧ (10 : ℚ) ≠ 10 + valveSg.households := by
  refine ⟨?_, rfl, by norm_num [valveSg]⟩
  rw [calculateSupplyOverview_ghostRun]
  norm_num [Except.map, valveM3]

/-- C6, witness: the amended theorem applied to the ghost-parent run —
the dangling sub is in no children list, it is counted by
`stats.subValves`, and the one region lists only the main valve with the
exact household sum. -/
theorem c6_dangling_sub_region_exclusion_witness :
    ¬ valveSg ∈ (⟨valveM3, [], 10, 10, 0, 0, some 0⟩ : VTNode).children ∧
      (⟨⟨10, 0, 0, 0, 0, 1, 1, 0⟩,
        [⟨"R", [⟨valveM3, 0, 0⟩], 10, 0, 0⟩],
        [⟨valveM3, [], 10, 10, 0, 0, some 0⟩]⟩ : SupplyOverview).stats.subValves =
        (subValvesOf [valveM3, valveSg]).length ∧
      ((⟨valveM3, 0, 0⟩ : RegionValve).valve ∈ mainValvesOf [valveM3, valveSg] ∧
        (⟨valveM3, 0, 0⟩ : RegionValve).valve ≠ valveSg) ∧
      (⟨"R", [⟨valveM3, 0, 0⟩], 10, 0, 0⟩ : Region).totalHouseholds =
        ((⟨"R", [⟨valveM3, 0, 0⟩], 10, 0, 0⟩ : Region).valves.map
          (fun rv => rv.valve.households)).sum := by
  have hc := c6_dangling_sub_region_exclusion linDist [] [valveM3, valveSg] []
    ⟨⟨10, 0, 0, 0, 0, 1, 1, 0⟩,
      [⟨"R", [⟨valveM3, 0, 0⟩], 10, 0, 0⟩],
      [⟨valveM3, [], 10, 10, 0, 0, some 0⟩]⟩ valveSg
    (by decide)
    (by norm_num +decide [subValvesOf, valveM3, valveSg])
    (by decide)
    calculateSupplyOverview_ghostRun
  exact ⟨hc.1 _ (List.mem_singleton.mpr rfl), hc.2.1,
    hc.2.2.1 _ (List.mem_singleton.mpr rfl) _ (List.mem_singleton.mpr rfl),
    hc.2.2.2 _ (List.mem_singleton.mpr rfl)⟩
end WFlow
